import Mathlib

/-!
Verification development for the ingest-pipeline Lambda
(`src/ingest_pipeline/main.py`).

The object store (one S3 bucket) is modelled as an association list from
keys to values; every external call (S3 operation, page render, the
outbound sync POST) consumes one tick of a schedule `Sched : Nat → Bool`
telling whether that call succeeds, and successful calls are recorded in
an operation trace.  Python exceptions are modelled with `Except String`.
-/

namespace IngestPipeline

/-! Decimal formatting, mirroring Python `f"{n:07d}"` and `int(...)`. -/
/-- Big-endian decimal digits of `n`, fuel-indexed so that it is structural. -/
def digitsAux : Nat → Nat → List Char
  | 0, _ => []
  | fuel+1, n => if n = 0 then [] else digitsAux fuel (n / 10) ++ [Nat.digitChar (n % 10)]

/-- Decimal representation of `n`, as Python `str(n)` produces it. -/
def natChars (n : Nat) : List Char :=
  if n = 0 then ['0'] else digitsAux (n+1) n

/-- Python `f"{n:0wd}"`: decimal representation left-padded with zeros to width `w`. -/
def zeroPad (w : Nat) (n : Nat) : String :=
  ⟨List.replicate (w - (natChars n).length) '0' ++ natChars n⟩

/-- Python `int(s)` on a string of decimal digits. -/
def digitsToNat (l : List Char) : Nat :=
  l.foldl (fun a c => 10 * a + (c.toNat - 48)) 0

/-- Python `os.path.basename`: the part of the path after the last slash. -/
def baseNameStr (s : String) : String :=
  ⟨(s.data.reverse.takeWhile (fun c => c != '/')).reverse⟩

/-- Python `os.path.splitext` on a basename: splits off the extension at the
    last dot, unless every character before that dot is itself a dot. -/
def splitext (name : List Char) : List Char × List Char :=
  let revExt := name.reverse.takeWhile (fun c => c != '.')
  if revExt.length = name.length then (name, [])
  else
    let base := (name.reverse.drop (revExt.length + 1)).reverse
    if base.all (fun c => c == '.') then (name, [])
    else (base, '.' :: revExt.reverse)

/-- Value of a hexadecimal digit, as `urllib.parse.unquote` accepts it. -/
def hexVal (c : Char) : Option Nat :=
  if '0' ≤ c ∧ c ≤ '9' then some (c.toNat - 48)
  else if 'A' ≤ c ∧ c ≤ 'F' then some (c.toNat - 55)
  else if 'a' ≤ c ∧ c ≤ 'f' then some (c.toNat - 87)
  else none

/-- Python `urllib.parse.unquote_plus` on the character list: `+` becomes a
    space and valid `%XX` escapes are decoded (non-ASCII escapes are modelled
    by the replacement character, invalid escapes are kept literally). -/
def unquoteChars : List Char → List Char
  | [] => []
  | '+' :: rest => ' ' :: unquoteChars rest
  | '%' :: c1 :: c2 :: rest =>
    match hexVal c1, hexVal c2 with
    | some h, some l =>
      let b := 16 * h + l
      (if b < 128 then Char.ofNat b else Char.ofNat 0xFFFD) :: unquoteChars rest
    | _, _ => '%' :: unquoteChars (c1 :: c2 :: rest)
  | c :: rest => c :: unquoteChars rest

def unquote_plus (s : String) : String := ⟨unquoteChars s.data⟩

/-- Boolean string-prefix test (Python `str.startswith`). -/
def strStarts (p s : String) : Bool := p.data.isPrefixOf s.data

/-- The fixed pattern `re.match(r"TASK_(\d+)\.json", name)`: a `TASK_` prefix,
    a nonempty greedy run of digits, then a literal `.json` (only a prefix of
    the remainder is required, as `re.match` does not anchor the end). -/
def taskNumL : List Char → Option Nat
  | 'T' :: 'A' :: 'S' :: 'K' :: '_' :: rest =>
    let ds := rest.takeWhile Char.isDigit
    if ds.isEmpty then none
    else if ['.', 'j', 's', 'o', 'n'].isPrefixOf (rest.drop ds.length) then
      some (digitsToNat ds)
    else none
  | _ => none

/-- The numbers extracted by `get_next_task_sequence` from a listing. -/
def extractNums (keys : List String) : List Nat :=
  keys.filterMap (fun k => taskNumL (baseNameStr k).data)

/-- The pure computation inside `get_next_task_sequence`, applied to the keys
    returned by the listing: 1, or the maximum extracted number plus 1. -/
def nextSeqPure (keys : List String) : Nat :=
  let nums := extractNums keys
  if nums.isEmpty then 1 else nums.foldl Nat.max 0 + 1

/-! The durable key names the pipeline produces, and their round-trip and
    injectivity properties. -/
/-- The work-item key `ingest/TASK_<seq:07d>.json` built by `create_and_upload_task`. -/
def taskKeyS (s : Nat) : String := "ingest/" ++ ("TASK_" ++ zeroPad 7 s ++ ".json")

/-- The per-page raster key `raw/<base>_<page:04d>.png` built by `process_pdf_page`. -/
def pageKey (base : String) (i : Nat) : String :=
  "raw/" ++ (base ++ "_" ++ zeroPad 4 i) ++ ".png"

/-- The fully-qualified image reference `s3://<bucket>/<key>`. -/
def imgPath (bucket key : String) : String := "s3://" ++ bucket ++ "/" ++ key

/-! The data model: JSON values, stored object values, the operation trace
    and the worker state. -/
/-- JSON values, as far as this pipeline constructs and inspects them. -/
inductive Json where
  | str (s : String)
  | arr (elems : List Json)
  | obj (fields : List (String × Json))

/-- The payload understood by the rasterizer: a PDF is its list of
    renderable pages (each page rendering to uninterpreted raster bytes), anything
    else is uninterpreted bytes. -/
inductive FileData where
  | pdfData (pages : List (List Nat))
  | imgData (bytes : List Nat)

/-- An object stored in the bucket: an uploaded file or a JSON document. -/
inductive Val where
  | file (d : FileData)
  | doc (j : Json)

/-- One successful external call, as recorded in the trace. -/
inductive Op where
  | download (key : String)
  | upload (key : String) (v : Val)
  | delete (key : String)
  | list (pre : String)
  | render (page : Nat)
  | syncPost

/-- The contents of the bucket: an association list with unique keys kept
    by construction of `putObj`. -/
abbrev Store := List (String × Val)

/-- Python `s3.upload_file`: overwrite the object at `k`. -/
def putObj (s : Store) (k : String) (v : Val) : Store :=
  (k, v) :: s.filter (fun e => e.1 != k)

/-- Python `s3.delete_object`. -/
def delObj (s : Store) (k : String) : Store := s.filter (fun e => e.1 != k)

/-- Python `s3.download_file` and `s3.head`-style lookup. -/
def getObj (s : Store) (k : String) : Option Val :=
  (s.find? (fun e => e.1 == k)).map (fun e => e.2)

/-- Python `s3.list_objects_v2` with a key prefix: every stored key under it. -/
def listKeys (s : Store) (pre : String) : List String :=
  (s.map (fun e => e.1)).filter (fun k => pre.data.isPrefixOf k.data)

/-- The worker state: bucket contents, number of external calls attempted so
    far, and the trace of calls that succeeded. -/
structure St where
  store : Store
  clock : Nat
  trace : List Op

/-- Whether the `n`-th external call succeeds (`n` counted from process start). -/
abbrev Sched := Nat → Bool

/-- The failure-free schedule. -/
def allOk : Sched := fun _ => true

/-- The next sequence number the allocator would hand out in state `σ`. -/
def nextIngest (σ : St) : Nat := nextSeqPure (listKeys σ.store "ingest/")

/-! The S3 call primitives.  Each one consumes a schedule tick; a failed
    call mutates nothing and is not traced. -/
def s3Upload (sched : Sched) (k : String) (v : Val) (σ : St) : Bool × St :=
  if sched σ.clock then
    (true, ⟨putObj σ.store k v, σ.clock + 1, σ.trace ++ [Op.upload k v]⟩)
  else (false, ⟨σ.store, σ.clock + 1, σ.trace⟩)

def s3Delete (sched : Sched) (k : String) (σ : St) : Bool × St :=
  if sched σ.clock then
    (true, ⟨delObj σ.store k, σ.clock + 1, σ.trace ++ [Op.delete k]⟩)
  else (false, ⟨σ.store, σ.clock + 1, σ.trace⟩)

def s3Download (sched : Sched) (k : String) (σ : St) : Except String Val × St :=
  if sched σ.clock then
    match getObj σ.store k with
    | some v => (Except.ok v, ⟨σ.store, σ.clock + 1, σ.trace ++ [Op.download k]⟩)
    | none => (Except.error "NoSuchKey", ⟨σ.store, σ.clock + 1, σ.trace⟩)
  else (Except.error "download failed", ⟨σ.store, σ.clock + 1, σ.trace⟩)

/-! The pipeline functions of `src/ingest_pipeline/main.py`, one Lean
    definition per Python function, same names. -/
/-- Python `get_next_task_sequence(bucket, prefix)`: one listing call, then the pure
    max-plus-one computation over the listed keys. -/
def get_next_task_sequence (sched : Sched) (pre : String) (σ : St) : Except String Nat × St :=
  if sched σ.clock then
    (Except.ok (nextSeqPure (listKeys σ.store pre)), ⟨σ.store, σ.clock + 1, σ.trace ++ [Op.list pre]⟩)
  else (Except.error "list_objects failed", ⟨σ.store, σ.clock + 1, σ.trace⟩)

/-- The JSON body `[dict(data=dict(image=image_s3_path))]` written by
    `create_and_upload_task`. -/
def taskBody (image_s3_path : String) : Json :=
  Json.arr [Json.obj [("data", Json.obj [("image", Json.str image_s3_path)])]]

/-- Python `create_and_upload_task(bucket, image_s3_path, seq_num, tmp_dir)`. -/
def create_and_upload_task (sched : Sched) (bucket image_s3_path : String) (seq_num : Nat)
    (σ : St) : Except String String × St :=
  let json_name := "TASK_" ++ zeroPad 7 seq_num ++ ".json"
  let ingest_key := "ingest/" ++ json_name
  match s3Upload sched ingest_key (Val.doc (taskBody image_s3_path)) σ with
  | (true, σ1) => (Except.ok ingest_key, σ1)
  | (false, σ1) => (Except.error "upload_file failed", σ1)

/-- Python `process_pdf_page(page, page_num, base_name, bucket, tmp_dir)`: render the
    page (one rasterizer call), upload the PNG to `raw/`, allocate a sequence
    number and emit the task. -/
def process_pdf_page (sched : Sched) (pages : List (List Nat)) (page_num : Nat)
    (base_name bucket : String) (σ : St) : Except String String × St :=
  let page_base := base_name ++ "_" ++ zeroPad 4 page_num
  if sched σ.clock then
    let bytes := pages.getD (page_num - 1) []
    let σ1 : St := ⟨σ.store, σ.clock + 1, σ.trace ++ [Op.render page_num]⟩
    let raw_png_key := "raw/" ++ page_base ++ ".png"
    match s3Upload sched raw_png_key (Val.file (FileData.imgData bytes)) σ1 with
    | (true, σ2) =>
      match get_next_task_sequence sched "ingest/" σ2 with
      | (Except.ok seq, σ3) =>
        let image_path := "s3://" ++ bucket ++ "/" ++ raw_png_key
        match create_and_upload_task sched bucket image_path seq σ3 with
        | (Except.ok _, σ4) => (Except.ok raw_png_key, σ4)
        | (Except.error e, σ4) => (Except.error e, σ4)
      | (Except.error e, σ3) => (Except.error e, σ3)
    | (false, σ2) => (Except.error "upload_file failed", σ2)
  else (Except.error "render failed", ⟨σ.store, σ.clock + 1, σ.trace⟩)

/-- The page loop of `process_pdf`, over the 1-based page numbers. -/
def process_pdf_pages (sched : Sched) (pages : List (List Nat)) (base_name bucket : String) :
    List Nat → St → Except String (List String) × St
  | [], σ => (Except.ok [], σ)
  | p :: ps, σ =>
    match process_pdf_page sched pages p base_name bucket σ with
    | (Except.ok key, σ1) =>
      match process_pdf_pages sched pages base_name bucket ps σ1 with
      | (Except.ok keys, σ2) => (Except.ok (key :: keys), σ2)
      | (Except.error e, σ2) => (Except.error e, σ2)
    | (Except.error e, σ1) => (Except.error e, σ1)

/-- Python `process_pdf(local_file, base_name, bucket, tmp_dir)`: fail on a zero-page
    document, otherwise process pages `1..page_count` in ascending order. -/
def process_pdf (sched : Sched) (pages : List (List Nat)) (base_name bucket : String)
    (σ : St) : Except String (List String) × St :=
  if pages.length = 0 then (Except.error "No pages found in PDF", σ)
  else process_pdf_pages sched pages base_name bucket
    ((List.range pages.length).map (fun i => i + 1)) σ

/-- Python `process_png(local_file, base_name, bucket, tmp_dir)`: copy the local
    file, upload it to `raw/<base>.png`, allocate a sequence number and emit
    the task. -/
def process_png (sched : Sched) (content : Val) (base_name bucket : String)
    (σ : St) : Except String (List String) × St :=
  let raw_png_key := "raw/" ++ base_name ++ ".png"
  match s3Upload sched raw_png_key content σ with
  | (true, σ1) =>
    match get_next_task_sequence sched "ingest/" σ1 with
    | (Except.ok seq, σ2) =>
      let image_path := "s3://" ++ bucket ++ "/" ++ raw_png_key
      match create_and_upload_task sched bucket image_path seq σ2 with
      | (Except.ok _, σ3) => (Except.ok [raw_png_key], σ3)
      | (Except.error e, σ3) => (Except.error e, σ3)
    | (Except.error e, σ2) => (Except.error e, σ2)
  | (false, σ1) => (Except.error "upload_file failed", σ1)

/-- Python `move_original_to_raw(local_file, bucket, original_key, base_name, ext)`:
    upload the original bytes to `raw/<base><ext>` and delete the staging key. -/
def move_original_to_raw (sched : Sched) (content : Val) (original_key base_name ext : String)
    (σ : St) : Except String String × St :=
  let raw_orig_key := "raw/" ++ base_name ++ ext
  match s3Upload sched raw_orig_key content σ with
  | (true, σ1) =>
    match s3Delete sched original_key σ1 with
    | (true, σ2) => (Except.ok raw_orig_key, σ2)
    | (false, σ2) => (Except.error "delete_object failed", σ2)
  | (false, σ1) => (Except.error "upload_file failed", σ1)

/-! Decoding the SQS record body (`json.loads` output is modelled as a
    `Json` value; the field accesses of `process_s3_record` follow). -/
def jGet : Json → String → Option Json
  | Json.obj fields, k => (fields.find? (fun e => e.1 == k)).map (fun e => e.2)
  | _, _ => none

def jIdx : Json → Nat → Option Json
  | Json.arr l, i => l.get? i
  | _, _ => none

def jStr : Json → Option String
  | Json.str s => some s
  | _ => none

/-- Fields `s3_event["Records"][0]["s3"]["bucket"]["name"]` and
    `s3_event["Records"][0]["s3"]["object"]["key"]`. -/
def recordS3 (body : Json) : Option (String × String) := do
  let recs ← jGet body "Records"
  let r0 ← jIdx recs 0
  let s3rec ← jGet r0 "s3"
  let bucket ← jStr (← jGet (← jGet s3rec "bucket") "name")
  let key ← jStr (← jGet (← jGet s3rec "object") "key")
  pure (bucket, key)

/-- Python `process_s3_record(record)`: decode, validate prefix and extension, fetch,
    relocate PNG originals, then materialize. -/
def process_s3_record (sched : Sched) (record_body : Json) (σ : St) :
    Except String Unit × St :=
  match recordS3 record_body with
  | none => (Except.error "KeyError", σ)
  | some (bucket, rawKey) =>
    let key := unquote_plus rawKey
    if !strStarts "upload/" key then (Except.ok (), σ)
    else
      let se := splitext (baseNameStr key).data
      let base : String := ⟨se.1⟩
      let ext : String := ⟨se.2.map Char.toLower⟩
      if !(ext == ".pdf" || ext == ".png") then (Except.ok (), σ)
      else
        match s3Download sched key σ with
        | (Except.error e, σ1) => (Except.error e, σ1)
        | (Except.ok content, σ1) =>
          if ext == ".png" then
            match move_original_to_raw sched content key base ext σ1 with
            | (Except.error e, σ2) => (Except.error e, σ2)
            | (Except.ok _, σ2) =>
              match process_png sched content base bucket σ2 with
              | (Except.ok _, σ3) => (Except.ok (), σ3)
              | (Except.error e, σ3) => (Except.error e, σ3)
          else
            match content with
            | Val.file (FileData.pdfData pages) =>
              match process_pdf sched pages base bucket σ1 with
              | (Except.ok _, σ2) => (Except.ok (), σ2)
              | (Except.error e, σ2) => (Except.error e, σ2)
            | _ => (Except.error "fitz open failed", σ1)

/-- The per-record loop of `lambda_handler`: every record is attempted, a
    record failure is logged and swallowed. -/
def processRecords (sched : Sched) : List Json → St → St
  | [], σ => σ
  | r :: rs, σ => processRecords sched rs (process_s3_record sched r σ).2

/-- The storage-sync trigger at the end of `lambda_handler`: one HTTP POST,
    whose JSON object response is an external input; a transport failure is
    caught and reported in the result only. -/
def doSync (sched : Sched) (syncResp : List (String × Json)) (σ : St) :
    (String × Json) × St :=
  if sched σ.clock then
    let st := match syncResp.find? (fun e => e.1 == "status") with
      | some (_, Json.str s) => if s = "completed" then "success" else "failed"
      | _ => "failed"
    ((st, Json.obj syncResp), ⟨σ.store, σ.clock + 1, σ.trace ++ [Op.syncPost]⟩)
  else (("failed", Json.obj [("error", Json.str "RequestException")]),
    ⟨σ.store, σ.clock + 1, σ.trace⟩)

/-- Python `lambda_handler(event, context)`: attempt every record, then trigger the
    sync exactly once, and always return the structured success marker. -/
def lambda_handler (sched : Sched) (syncResp : List (String × Json)) (records : List Json)
    (σ : St) : Json × St :=
  let σ1 := processRecords sched records σ
  let r := doSync sched syncResp σ1
  (Json.obj [("status", Json.str "success"),
    ("sync", Json.obj [("status", Json.str r.1.1), ("response", r.1.2)])], r.2)

/-! Execution of one page unit and of the page loop under a schedule that
    lets the needed calls succeed. -/
/-- The four successful calls one page unit performs, in order. -/
def pageOps (pages : List (List Nat)) (base bucket : String) (p seq : Nat) : List Op :=
  [Op.render p,
   Op.upload (pageKey base p) (Val.file (FileData.imgData (pages.getD (p - 1) []))),
   Op.list "ingest/",
   Op.upload (taskKeyS seq) (Val.doc (taskBody (imgPath bucket (pageKey base p))))]

/-- The calls of the whole page loop, with consecutive sequence numbers. -/
def pagesOps (pages : List (List Nat)) (base bucket : String) :
    List Nat → Nat → List Op
  | [], _ => []
  | p :: ps, seq => pageOps pages base bucket p seq ++ pagesOps pages base bucket ps (seq + 1)

/-- The sequence numbers of the work items uploaded in a trace. -/
def taskSeqs (ops : List Op) : List Nat :=
  ops.filterMap (fun op => match op with
    | Op.upload k (Val.doc _) => taskNumL (baseNameStr k).data
    | _ => none)

/-! Work-item references: which stored documents reference a raster key. -/
/-- The image reference read back from a work-item body by generic JSON
    access: element 0, field `data`, field `image`. -/
def bodyImage (j : Json) : Option Json :=
  (jIdx j 0).bind (fun el => (jGet el "data").bind (fun d => jGet d "image"))

/-- The length of a JSON array. -/
def jArrLen : Json → Option Nat
  | Json.arr l => some l.length
  | _ => none

/-- Whether a stored object is a work item referencing `target`. -/
def refP (target : String) (e : String × Val) : Bool :=
  match e.2 with
  | Val.doc j =>
    match bodyImage j with
    | some (Json.str s) => s == target
    | _ => false
  | Val.file _ => false

/-- How many stored objects reference `target` as their work-item image. -/
def countRefs (s : Store) (target : String) : Nat := s.countP (refP target)

/-- A well-formed SQS record body carrying one S3 event record. -/
def mkRecordBody (bucket rawKey : String) : Json :=
  Json.obj [("Records", Json.arr [Json.obj [("s3",
    Json.obj [("bucket", Json.obj [("name", Json.str bucket)]),
              ("object", Json.obj [("key", Json.str rawKey)])])]])]

/-- The lower-cased extension `process_s3_record` computes for a key. -/
def extOf (key : String) : String :=
  ⟨(splitext (baseNameStr key).data).2.map Char.toLower⟩

/-- The base name `process_s3_record` computes for a key. -/
def srcBase (key : String) : String := ⟨(splitext (baseNameStr key).data).1⟩

/-- The key a relocated PNG original is uploaded to, `raw/<base>.png`; for a
    `.png` source this is also the raster key `process_png` uploads to. -/
def relocKeyOf (key : String) : String := "raw/" ++ srcBase key ++ ".png"

theorem digitsAux_zero (fuel : Nat) : digitsAux fuel 0 = [] := by
  cases fuel <;> simp [digitsAux]

theorem digitChar_toNat {d : Nat} (h : d < 10) : (Nat.digitChar d).toNat = 48 + d := by
  interval_cases d <;> rfl

theorem digitChar_isDigit {d : Nat} (h : d < 10) : (Nat.digitChar d).isDigit = true := by
  interval_cases d <;> rfl

theorem digitsAux_foldl : ∀ fuel n, n ≤ fuel → 0 < n → ∀ a : Nat,
    (digitsAux fuel n).foldl (fun a c => 10 * a + (c.toNat - 48)) a
      = a * 10 ^ (digitsAux fuel n).length + n := by
  intro fuel
  induction fuel with
  | zero => intro n h h0; omega
  | succ fuel ih =>
    intro n hle h0 a
    have hne : ¬ n = 0 := by omega
    by_cases hq : n / 10 = 0
    · have hlt : n < 10 := by omega
      have hmod : n % 10 = n := Nat.mod_eq_of_lt hlt
      simp only [digitsAux, if_neg hne, hq, digitsAux_zero, List.nil_append,
        List.foldl, List.length_cons, List.length_nil, Nat.zero_add, pow_one,
        hmod, digitChar_toNat hlt]
      omega
    · have hq0 : 0 < n / 10 := Nat.pos_of_ne_zero hq
      have hlt : n / 10 < n := Nat.div_lt_self h0 (by norm_num)
      have hle' : n / 10 ≤ fuel := by omega
      simp only [digitsAux, if_neg hne, List.foldl_append, List.length_append,
        List.length_cons, List.length_nil, Nat.zero_add]
      rw [ih (n / 10) hle' hq0 a]
      simp only [List.foldl]
      rw [digitChar_toNat (show n % 10 < 10 from Nat.mod_lt _ (by norm_num))]
      have hsplit : 10 * (n / 10) + n % 10 = n := Nat.div_add_mod n 10
      have hpow : 10 * (a * 10 ^ (digitsAux fuel (n / 10)).length + n / 10)
          = a * 10 ^ ((digitsAux fuel (n / 10)).length + 1) + 10 * (n / 10) := by
        rw [pow_succ]; ring
      omega

theorem digitsAux_digits : ∀ fuel n, ∀ c ∈ digitsAux fuel n, c.isDigit = true := by
  intro fuel
  induction fuel with
  | zero => intro n c hc; simp [digitsAux] at hc
  | succ fuel ih =>
    intro n c hc
    by_cases hn : n = 0
    · subst hn; simp [digitsAux] at hc
    · simp only [digitsAux, if_neg hn, List.mem_append, List.mem_singleton] at hc
      rcases hc with h | h
      · exact ih _ _ h
      · subst h; exact digitChar_isDigit (Nat.mod_lt _ (by norm_num))

theorem digitsToNat_natChars (n : Nat) : digitsToNat (natChars n) = n := by
  by_cases hn : n = 0
  · subst hn; rfl
  · have h := digitsAux_foldl (n+1) n (by omega) (Nat.pos_of_ne_zero hn) 0
    simp only [natChars, if_neg hn, digitsToNat]
    simpa using h

theorem natChars_digits (n : Nat) : ∀ c ∈ natChars n, c.isDigit = true := by
  intro c hc
  by_cases hn : n = 0
  · subst hn; simp [natChars] at hc; subst hc; rfl
  · simp only [natChars, if_neg hn] at hc
    exact digitsAux_digits _ _ _ hc

theorem natChars_ne_nil (n : Nat) : natChars n ≠ [] := by
  by_cases hn : n = 0
  · subst hn; simp [natChars]
  · simp only [natChars, if_neg hn]
    have h0 : 0 < n := Nat.pos_of_ne_zero hn
    cases fuelEq : digitsAux (n+1) n with
    | nil =>
      have := digitsAux_foldl (n+1) n (by omega) h0 0
      rw [fuelEq] at this
      simp [digitsToNat] at this
      omega
    | cons a l => simp

theorem foldl_zeros (k : Nat) :
    (List.replicate k '0').foldl (fun a c => 10 * a + (c.toNat - 48)) 0 = 0 := by
  induction k with
  | zero => rfl
  | succ k ih => simpa [List.replicate_succ, List.foldl] using ih

theorem digitsToNat_zeroPad (w n : Nat) : digitsToNat (zeroPad w n).data = n := by
  simp only [zeroPad, digitsToNat, List.foldl_append, foldl_zeros]
  exact digitsToNat_natChars n

theorem zeroPad_digits (w n : Nat) : ∀ c ∈ (zeroPad w n).data, c.isDigit = true := by
  intro c hc
  simp only [zeroPad, List.mem_append, List.mem_replicate] at hc
  rcases hc with ⟨_, h⟩ | h
  · subst h; rfl
  · exact natChars_digits n c h

theorem zeroPad_ne_nil (w n : Nat) : (zeroPad w n).data ≠ [] := by
  simp only [zeroPad]
  intro h
  rcases List.append_eq_nil.mp h with ⟨_, h2⟩
  exact natChars_ne_nil n h2

theorem zeroPad_inj {w a b : Nat} (h : zeroPad w a = zeroPad w b) : a = b := by
  have := congrArg (fun s : String => digitsToNat s.data) h
  simpa [digitsToNat_zeroPad] using this

/-! String plumbing.  Lean `String` is a structure around `List Char`; the
    Python string functions the source uses are implemented on `data`. -/
theorem strData_append (s t : String) : (s ++ t).data = s.data ++ t.data := by
  cases s; cases t; rfl

theorem strEq_of_data {s t : String} (h : s.data = t.data) : s = t := by
  cases s; cases t; exact congrArg String.mk h

/-! Generic helpers about `takeWhile`, `foldl Nat.max` and friends. -/
theorem takeWhile_all_append (p : Char → Bool) (l₁ : List Char) (c : Char) (l₂ : List Char)
    (h1 : ∀ x ∈ l₁, p x = true) (h2 : p c = false) :
    (l₁ ++ c :: l₂).takeWhile p = l₁ := by
  induction l₁ with
  | nil => simp [List.takeWhile, h2]
  | cons a l ih =>
    have ha : p a = true := h1 a (by simp)
    simp only [List.cons_append, List.takeWhile_cons, ha, if_true]
    rw [ih (fun x hx => h1 x (by simp [hx]))]

theorem foldl_max_comm (l : List Nat) : ∀ a : Nat, l.foldl Nat.max a = Nat.max a (l.foldl Nat.max 0) := by
  induction l with
  | nil => intro a; simp
  | cons x l ih =>
    intro a
    simp only [List.foldl]
    rw [ih (Nat.max a x), ih (Nat.max 0 x)]
    simp [Nat.max_comm, Nat.max_assoc, Nat.max_left_comm]

theorem foldl_max_le (l : List Nat) (x : Nat) (hx : x ∈ l) : x ≤ l.foldl Nat.max 0 := by
  induction l with
  | nil => simp at hx
  | cons a l ih =>
    simp only [List.foldl, Nat.zero_max]
    rw [foldl_max_comm]
    rcases List.mem_cons.mp hx with h | h
    · subst h; exact Nat.le_max_left _ _
    · exact le_trans (ih h) (Nat.le_max_right _ _)

theorem foldl_max_mem (l : List Nat) (hne : l ≠ []) : l.foldl Nat.max 0 ∈ l := by
  induction l with
  | nil => exact absurd rfl hne
  | cons a l ih =>
    simp only [List.foldl, Nat.zero_max]
    rw [foldl_max_comm]
    by_cases hl : l = []
    · subst hl; simp
    · by_cases hax : a ≤ l.foldl Nat.max 0
      · have hmax : Nat.max a (l.foldl Nat.max 0) = l.foldl Nat.max 0 := max_eq_right hax
        rw [hmax]; exact List.mem_cons_of_mem _ (ih hl)
      · have hmax : Nat.max a (l.foldl Nat.max 0) = a := max_eq_left (le_of_not_le hax)
        rw [hmax]; exact List.mem_cons_self _ _

/-! Characterisation of `nextSeqPure`. -/
theorem nextSeqPure_nil_matches (keys : List String)
    (h : ∀ k ∈ keys, taskNumL (baseNameStr k).data = none) : nextSeqPure keys = 1 := by
  have : extractNums keys = [] := by
    simp only [extractNums, List.filterMap_eq_nil_iff]
    exact h
  simp [nextSeqPure, this]

theorem nextSeqPure_max (keys : List String) (hne : extractNums keys ≠ []) :
    ∃ m ∈ extractNums keys, (∀ x ∈ extractNums keys, x ≤ m) ∧ nextSeqPure keys = m + 1 := by
  refine ⟨(extractNums keys).foldl Nat.max 0, foldl_max_mem _ hne, fun x hx => foldl_max_le _ x hx, ?_⟩
  simp [nextSeqPure, List.isEmpty_iff, hne]

theorem nextSeqPure_ignores (k : String) (keys : List String)
    (h : taskNumL (baseNameStr k).data = none) : nextSeqPure (k :: keys) = nextSeqPure keys := by
  simp [nextSeqPure, extractNums, List.filterMap_cons, h]

theorem nextSeqPure_gt (keys : List String) (k : String) (s : Nat)
    (hk : k ∈ keys) (hs : taskNumL (baseNameStr k).data = some s) : s < nextSeqPure keys := by
  have hmem : s ∈ extractNums keys := by
    simp only [extractNums, List.mem_filterMap]
    exact ⟨k, hk, hs⟩
  have hne : extractNums keys ≠ [] := fun h => by simp [h] at hmem
  have hle : s ≤ (extractNums keys).foldl Nat.max 0 := foldl_max_le _ s hmem
  simp only [nextSeqPure, List.isEmpty_iff, if_neg hne]
  omega

theorem ne_slash_of_isDigit {c : Char} (h : c.isDigit = true) : (c != '/') = true := by
  have hc : c ≠ '/' := by intro e; subst e; exact absurd h (by decide)
  simpa [bne_iff_ne] using hc

theorem taskName_data (s : Nat) :
    ("TASK_" ++ zeroPad 7 s ++ ".json").data
      = 'T' :: 'A' :: 'S' :: 'K' :: '_' :: ((zeroPad 7 s).data ++ ['.', 'j', 's', 'o', 'n']) := by
  simp [strData_append]

theorem taskNumL_name (s : Nat) :
    taskNumL ("TASK_" ++ zeroPad 7 s ++ ".json").data = some s := by
  rw [taskName_data]
  have htake : ((zeroPad 7 s).data ++ '.' :: ['j', 's', 'o', 'n']).takeWhile Char.isDigit
      = (zeroPad 7 s).data :=
    takeWhile_all_append _ _ _ _ (zeroPad_digits 7 s) (by decide)
  simp only [taskNumL, htake, List.isEmpty_iff, List.drop_left]
  rw [if_neg (zeroPad_ne_nil 7 s)]
  simp [digitsToNat_zeroPad]

theorem taskName_no_slash (s : Nat) :
    ∀ c ∈ ("TASK_" ++ zeroPad 7 s ++ ".json").data, (c != '/') = true := by
  intro c hc
  rw [taskName_data] at hc
  simp only [List.mem_cons, List.mem_append] at hc
  rcases hc with h | h | h | h | h | h | h
  · subst h; decide
  · subst h; decide
  · subst h; decide
  · subst h; decide
  · subst h; decide
  · exact ne_slash_of_isDigit (zeroPad_digits 7 s c h)
  · rcases h with h | h | h | h | h
    · subst h; decide
    · subst h; decide
    · subst h; decide
    · subst h; decide
    · rcases h with h | h
      · subst h; decide
      · simp at h

theorem baseNameStr_after_slash (l₁ l₂ : List Char) (h : ∀ c ∈ l₂, (c != '/') = true) :
    baseNameStr ⟨l₁ ++ '/' :: l₂⟩ = ⟨l₂⟩ := by
  simp only [baseNameStr]
  have hrev : (l₁ ++ '/' :: l₂).reverse = l₂.reverse ++ '/' :: l₁.reverse := by
    simp [List.reverse_append]
  rw [hrev, takeWhile_all_append _ _ _ _ (fun c hc => h c (List.mem_reverse.mp hc)) (by decide),
    List.reverse_reverse]

theorem baseNameStr_taskKey (s : Nat) :
    baseNameStr (taskKeyS s) = "TASK_" ++ zeroPad 7 s ++ ".json" := by
  have hdata : (taskKeyS s).data
      = ['i', 'n', 'g', 'e', 's', 't'] ++ '/' :: ("TASK_" ++ zeroPad 7 s ++ ".json").data := by
    simp [taskKeyS, strData_append]
  have harg : taskKeyS s
      = (⟨['i', 'n', 'g', 'e', 's', 't'] ++ '/' :: ("TASK_" ++ zeroPad 7 s ++ ".json").data⟩ : String) :=
    strEq_of_data hdata
  rw [harg, baseNameStr_after_slash _ _ (taskName_no_slash s)]

theorem taskNum_taskKey (s : Nat) :
    taskNumL (baseNameStr (taskKeyS s)).data = some s := by
  rw [baseNameStr_taskKey]; exact taskNumL_name s

theorem taskKeyS_inj {a b : Nat} (h : taskKeyS a = taskKeyS b) : a = b := by
  have := congrArg (fun k => taskNumL (baseNameStr k).data) h
  simp only [taskNum_taskKey] at this
  exact Option.some.inj this

theorem pageKey_data (base : String) (i : Nat) :
    (pageKey base i).data
      = 'r' :: 'a' :: 'w' :: '/' :: (base.data ++ '_' :: ((zeroPad 4 i).data ++ ['.', 'p', 'n', 'g'])) := by
  simp [pageKey, strData_append]

theorem pageKey_inj {base : String} {i j : Nat} (h : pageKey base i = pageKey base j) : i = j := by
  have hd := congrArg String.data h
  rw [pageKey_data, pageKey_data] at hd
  simp only [List.cons.injEq, true_and] at hd
  have h2 := List.append_cancel_left hd
  simp only [List.cons.injEq, true_and] at h2
  have h3 := List.append_cancel_right h2
  exact zeroPad_inj (strEq_of_data h3 : zeroPad 4 i = zeroPad 4 j)

theorem taskKeyS_data (s : Nat) :
    (taskKeyS s).data
      = 'i' :: 'n' :: 'g' :: 'e' :: 's' :: 't' :: '/' :: ("TASK_" ++ zeroPad 7 s ++ ".json").data := by
  simp [taskKeyS, strData_append]

theorem pageKey_ne_taskKey (base : String) (i s : Nat) : pageKey base i ≠ taskKeyS s := by
  intro h
  have hd := congrArg String.data h
  rw [pageKey_data, taskKeyS_data] at hd
  exact absurd (List.head_eq_of_cons_eq hd) (by decide)

theorem imgPath_data (bucket key : String) :
    (imgPath bucket key).data
      = 's' :: '3' :: ':' :: '/' :: '/' :: (bucket.data ++ '/' :: key.data) := by
  simp [imgPath, strData_append]

theorem imgPath_inj {bucket k k' : String} (h : imgPath bucket k = imgPath bucket k') : k = k' := by
  have hd := congrArg String.data h
  rw [imgPath_data, imgPath_data] at hd
  simp only [List.cons.injEq, true_and] at hd
  have h2 := List.append_cancel_left hd
  simp only [List.cons.injEq, true_and] at h2
  exact strEq_of_data h2

theorem isPrefixOf_true_iff {l₁ l₂ : List Char} :
    l₁.isPrefixOf l₂ = true ↔ l₁ <+: l₂ :=
  List.isPrefixOf_iff_prefix

theorem ingest_not_prefix_of_raw (base : String) (i : Nat) :
    "ingest/".data.isPrefixOf (pageKey base i).data = false := by
  rw [pageKey_data]
  rw [Bool.eq_false_iff]
  intro h
  have := List.cons_prefix_cons.mp (isPrefixOf_true_iff.mp h)
  exact absurd this.1 (by decide)

theorem ingest_prefix_of_taskKey (s : Nat) :
    "ingest/".data.isPrefixOf (taskKeyS s).data = true := by
  rw [isPrefixOf_true_iff, taskKeyS_data]
  exact ⟨("TASK_" ++ zeroPad 7 s ++ ".json").data, rfl⟩

theorem ingest_not_prefix_of_upload {key : String} (h : strStarts "upload/" key = true) :
    "ingest/".data.isPrefixOf key.data = false := by
  rcases isPrefixOf_true_iff.mp h with ⟨t, ht⟩
  rw [Bool.eq_false_iff]
  intro h2
  have h3 := isPrefixOf_true_iff.mp h2
  rw [← ht] at h3
  have := List.cons_prefix_cons.mp h3
  exact absurd this.1 (by decide)

/-! Store-level lemmas about `putObj`, `delObj`, `getObj` and `listKeys`. -/
theorem find?_filter {α : Type} (p q : α → Bool) (l : List α)
    (h : ∀ e, p e = true → q e = true) : (l.filter q).find? p = l.find? p := by
  induction l with
  | nil => rfl
  | cons a l ih =>
    by_cases hq : q a = true
    · rw [List.filter_cons_of_pos hq]
      cases hp : p a
      · rw [List.find?_cons_of_neg _ (by simp [hp]), List.find?_cons_of_neg _ (by simp [hp])]
        exact ih
      · rw [List.find?_cons_of_pos _ hp, List.find?_cons_of_pos _ hp]
    · have hp : p a = false := by
        cases hpa : p a
        · rfl
        · exact absurd (h a hpa) (by simp [hq])
      rw [List.filter_cons_of_neg (by simp [hq]), List.find?_cons_of_neg _ (by simp [hp])]
      exact ih

theorem map_fst_filter_key (s : Store) (k : String) :
    ((s.filter (fun e => e.1 != k)).map (fun e => e.1))
      = (s.map (fun e => e.1)).filter (fun x => x != k) := by
  induction s with
  | nil => rfl
  | cons a s ih =>
    by_cases ha : (a.1 != k) = true
    · simp [List.filter_cons, ha, ih]
    · simp only [Bool.not_eq_true] at ha
      simp [List.filter_cons, ha, ih]

theorem listKeys_putObj (s : Store) (k : String) (v : Val) (pre : String) :
    listKeys (putObj s k v) pre
      = (if pre.data.isPrefixOf k.data then [k] else [])
        ++ (listKeys s pre).filter (fun x => x != k) := by
  simp only [listKeys, putObj, List.map_cons, map_fst_filter_key, List.filter_cons]
  by_cases hp : pre.data.isPrefixOf k.data = true
  · simp [hp, List.filter_filter, Bool.and_comm]
  · simp only [Bool.not_eq_true] at hp
    simp [hp, List.filter_filter, Bool.and_comm]

theorem mem_listKeys_pre {s : Store} {pre x : String} (h : x ∈ listKeys s pre) :
    pre.data.isPrefixOf x.data = true := by
  simp only [listKeys, List.mem_filter] at h
  exact h.2

theorem filter_ne_of_not_listed {s : Store} {pre k : String}
    (h : pre.data.isPrefixOf k.data = false) :
    (listKeys s pre).filter (fun x => x != k) = listKeys s pre := by
  apply List.filter_eq_self.mpr
  intro x hx
  have hp := mem_listKeys_pre hx
  have : x ≠ k := by
    intro e; subst e; rw [hp] at h; simp at h
  simpa [bne_iff_ne] using this

theorem listKeys_putObj_nopre (s : Store) (k : String) (v : Val) (pre : String)
    (h : pre.data.isPrefixOf k.data = false) :
    listKeys (putObj s k v) pre = listKeys s pre := by
  rw [listKeys_putObj, h, filter_ne_of_not_listed h]
  simp

theorem listKeys_delObj_nopre (s : Store) (k : String) (pre : String)
    (h : pre.data.isPrefixOf k.data = false) :
    listKeys (delObj s k) pre = listKeys s pre := by
  simp only [listKeys, delObj, map_fst_filter_key, List.filter_filter]
  rw [show (fun x => pre.data.isPrefixOf x.data && (x != k))
      = fun x => ((x != k) && pre.data.isPrefixOf x.data) from funext (fun x => Bool.and_comm _ _)]
  rw [← List.filter_filter]
  exact filter_ne_of_not_listed h

theorem mem_putObj_self (s : Store) (k : String) (v : Val) : (k, v) ∈ putObj s k v :=
  List.mem_cons_self _ _

theorem mem_putObj_of {s : Store} {e : String × Val} (k : String) (v : Val)
    (he : e ∈ s) (hne : e.1 ≠ k) : e ∈ putObj s k v := by
  apply List.mem_cons_of_mem
  rw [List.mem_filter]
  exact ⟨he, by simpa [bne_iff_ne] using hne⟩

theorem mem_of_mem_putObj {s : Store} {e : String × Val} {k : String} {v : Val}
    (he : e ∈ putObj s k v) : e = (k, v) ∨ (e ∈ s ∧ e.1 ≠ k) := by
  rcases List.mem_cons.mp he with h | h
  · exact Or.inl h
  · rw [List.mem_filter] at h
    exact Or.inr ⟨h.1, by simpa [bne_iff_ne] using h.2⟩

theorem getObj_putObj_self (s : Store) (k : String) (v : Val) :
    getObj (putObj s k v) k = some v := by
  simp [getObj, putObj, List.find?_cons]

theorem getObj_putObj_ne (s : Store) {k k' : String} (v : Val) (hne : k' ≠ k) :
    getObj (putObj s k v) k' = getObj s k' := by
  have hk : (k == k') = false := by
    simp only [beq_eq_false_iff_ne, ne_eq]
    exact fun e => hne e.symm
  simp only [getObj, putObj, List.find?_cons, hk]
  rw [find?_filter]
  intro e he
  have : e.1 = k' := by simpa using he
  subst this
  simpa [bne_iff_ne] using hne

theorem getObj_delObj_ne (s : Store) {k k' : String} (hne : k' ≠ k) :
    getObj (delObj s k) k' = getObj s k' := by
  simp only [getObj, delObj]
  rw [find?_filter]
  intro e he
  have : e.1 = k' := by simpa using he
  subst this
  simpa [bne_iff_ne] using hne

theorem nodup_keys_putObj {s : Store} (k : String) (v : Val)
    (h : (s.map (fun e => e.1)).Nodup) : ((putObj s k v).map (fun e => e.1)).Nodup := by
  simp only [putObj, List.map_cons, map_fst_filter_key, List.nodup_cons]
  constructor
  · intro hmem
    rw [List.mem_filter] at hmem
    simp [bne_iff_ne] at hmem
  · exact List.Nodup.sublist (List.filter_sublist _) h

theorem nodup_keys_delObj {s : Store} (k : String)
    (h : (s.map (fun e => e.1)).Nodup) : ((delObj s k).map (fun e => e.1)).Nodup := by
  simp only [delObj, map_fst_filter_key]
  exact List.Nodup.sublist (List.filter_sublist _) h

theorem nextSeqPure_gt_of_mem {L : List String} {x : Nat} (h : x ∈ extractNums L) :
    x < nextSeqPure L := by
  rcases List.mem_filterMap.mp h with ⟨k, hk, hx⟩
  exact nextSeqPure_gt L k x hk hx

theorem extractNums_filter_subset {L : List String} {q : String → Bool} {x : Nat}
    (h : x ∈ extractNums (L.filter q)) : x ∈ extractNums L := by
  rcases List.mem_filterMap.mp h with ⟨k, hk, hx⟩
  exact List.mem_filterMap.mpr ⟨k, (List.mem_filter.mp hk).1, hx⟩

theorem nextSeqPure_cons_top (k : String) (L : List String) (m : Nat)
    (hk : taskNumL (baseNameStr k).data = some m)
    (hlt : ∀ x ∈ extractNums L, x < m) : nextSeqPure (k :: L) = m + 1 := by
  have hext : extractNums (k :: L) = m :: extractNums L := by
    simp [extractNums, List.filterMap_cons, hk]
  have hne : extractNums (k :: L) ≠ [] := by simp [hext]
  simp only [nextSeqPure, List.isEmpty_iff, if_neg hne, hext]
  have hfold : (m :: extractNums L).foldl Nat.max 0 = m := by
    simp only [List.foldl]
    rw [foldl_max_comm]
    by_cases hE : extractNums L = []
    · simp [hE]
    · have := hlt _ (foldl_max_mem _ hE)
      have h0m : Nat.max 0 m = m := by simp
      rw [h0m]
      exact max_eq_left (by omega)
  rw [hfold]
  simp

/-- Allocating against a store, then persisting the task under the allocated
    key, bumps the next allocation by exactly one. -/
theorem nextSeq_put_task (st : Store) (v : Val) :
    nextSeqPure (listKeys (putObj st (taskKeyS (nextSeqPure (listKeys st "ingest/"))) v) "ingest/")
      = nextSeqPure (listKeys st "ingest/") + 1 := by
  set m := nextSeqPure (listKeys st "ingest/") with hm
  rw [listKeys_putObj, ingest_prefix_of_taskKey, if_pos rfl]
  simp only [List.singleton_append]
  apply nextSeqPure_cons_top _ _ _ (taskNum_taskKey m)
  intro x hx
  exact hm ▸ nextSeqPure_gt_of_mem (extractNums_filter_subset hx)

theorem process_pdf_page_ok (pages : List (List Nat)) (p : Nat) (base bucket : String)
    (sched : Sched) (σ : St)
    (h0 : sched σ.clock = true) (h1 : sched (σ.clock + 1) = true)
    (h2 : sched (σ.clock + 2) = true) (h3 : sched (σ.clock + 3) = true) :
    process_pdf_page sched pages p base bucket σ =
      (Except.ok (pageKey base p),
       ⟨putObj (putObj σ.store (pageKey base p)
            (Val.file (FileData.imgData (pages.getD (p - 1) []))))
          (taskKeyS (nextIngest σ)) (Val.doc (taskBody (imgPath bucket (pageKey base p)))),
        σ.clock + 4,
        σ.trace ++ pageOps pages base bucket p (nextIngest σ)⟩) := by
  have hseq : nextSeqPure
      (listKeys (putObj σ.store ("raw/" ++ (base ++ "_" ++ zeroPad 4 p) ++ ".png")
        (Val.file (FileData.imgData (pages.getD (p - 1) [])))) "ingest/")
      = nextIngest σ := by
    rw [listKeys_putObj_nopre _ _ _ _
      (show "ingest/".data.isPrefixOf ("raw/" ++ (base ++ "_" ++ zeroPad 4 p) ++ ".png").data = false
        from ingest_not_prefix_of_raw base p)]
    rfl
  simp only [process_pdf_page, h0, if_true, s3Upload, h1, if_true,
    get_next_task_sequence, h2, if_true, create_and_upload_task, s3Upload, h3, if_true,
    hseq]
  simp only [Prod.mk.injEq, St.mk.injEq]
  refine ⟨rfl, rfl, trivial, ?_⟩
  simp [pageOps, pageKey, taskKeyS, imgPath, List.append_assoc]

/-- Full characterisation of a failure-free run of the page loop: the
    returned keys, the clock, the trace, the next allocation, and the store
    (what was added, what survives, and key uniqueness). -/
theorem pages_spec (pages : List (List Nat)) (base bucket : String) (sched : Sched) :
    ∀ (ps : List Nat) (σ : St),
    (∀ n, n < 4 * ps.length → sched (σ.clock + n) = true) →
    ∃ σ' : St,
      process_pdf_pages sched pages base bucket ps σ
          = (Except.ok (ps.map (pageKey base)), σ') ∧
      σ'.clock = σ.clock + 4 * ps.length ∧
      σ'.trace = σ.trace ++ pagesOps pages base bucket ps (nextIngest σ) ∧
      nextIngest σ' = nextIngest σ + ps.length ∧
      (∀ e ∈ σ'.store, e ∈ σ.store ∨
        (∃ p ∈ ps, e = (pageKey base p, Val.file (FileData.imgData (pages.getD (p - 1) [])))) ∨
        (∃ j, j < ps.length ∧
          e = (taskKeyS (nextIngest σ + j),
               Val.doc (taskBody (imgPath bucket (pageKey base (ps.getD j 0))))))) ∧
      (∀ e ∈ σ.store, (∀ p ∈ ps, e.1 ≠ pageKey base p) →
        (∀ j, j < ps.length → e.1 ≠ taskKeyS (nextIngest σ + j)) → e ∈ σ'.store) ∧
      (∀ j, j < ps.length →
        (taskKeyS (nextIngest σ + j),
         Val.doc (taskBody (imgPath bucket (pageKey base (ps.getD j 0))))) ∈ σ'.store) ∧
      (ps.Nodup → ∀ p ∈ ps,
        (pageKey base p, Val.file (FileData.imgData (pages.getD (p - 1) []))) ∈ σ'.store) ∧
      (∀ k', (∀ p ∈ ps, k' ≠ pageKey base p) →
        (∀ j, j < ps.length → k' ≠ taskKeyS (nextIngest σ + j)) →
        getObj σ'.store k' = getObj σ.store k') ∧
      ((σ.store.map (fun e => e.1)).Nodup → (σ'.store.map (fun e => e.1)).Nodup) := by
  intro ps
  induction ps with
  | nil =>
    intro σ hs
    refine ⟨σ, rfl, by simp, by simp [pagesOps], by simp, ?_, ?_, ?_, ?_, ?_, ?_⟩
    · intro e he; exact Or.inl he
    · intro e he _ _; exact he
    · intro j hj; simp at hj
    · intro _ p hp; simp at hp
    · intro k' _ _; rfl
    · intro h; exact h
  | cons p ps ih =>
    intro σ hs
    have hlen : (p :: ps).length = ps.length + 1 := rfl
    have h0 : sched σ.clock = true := by
      have := hs 0 (by rw [hlen]; omega)
      simpa using this
    have h1 : sched (σ.clock + 1) = true := hs 1 (by rw [hlen]; omega)
    have h2 : sched (σ.clock + 2) = true := hs 2 (by rw [hlen]; omega)
    have h3 : sched (σ.clock + 3) = true := hs 3 (by rw [hlen]; omega)
    have hpage := process_pdf_page_ok pages p base bucket sched σ h0 h1 h2 h3
    set m := nextIngest σ with hm
    set rv : Val := Val.file (FileData.imgData (pages.getD (p - 1) [])) with hrv
    set tv : Val := Val.doc (taskBody (imgPath bucket (pageKey base p))) with htv
    set σ4 : St := ⟨putObj (putObj σ.store (pageKey base p) rv) (taskKeyS m) tv,
      σ.clock + 4, σ.trace ++ pageOps pages base bucket p m⟩ with hσ4def
    have hσ4store : σ4.store = putObj (putObj σ.store (pageKey base p) rv) (taskKeyS m) tv := by
      rw [hσ4def]
    have hσ4clock : σ4.clock = σ.clock + 4 := by rw [hσ4def]
    have hσ4trace : σ4.trace = σ.trace ++ pageOps pages base bucket p m := by rw [hσ4def]
    have hst' : nextSeqPure (listKeys (putObj σ.store (pageKey base p) rv) "ingest/") = m := by
      rw [listKeys_putObj_nopre _ _ _ _ (ingest_not_prefix_of_raw base p)]
      rfl
    have hnext4 : nextIngest σ4 = m + 1 := by
      have h := nextSeq_put_task (putObj σ.store (pageKey base p) rv) tv
      rw [hst'] at h
      rw [show nextIngest σ4 = nextSeqPure (listKeys σ4.store "ingest/") from rfl, hσ4store]
      exact h
    have hsched4 : ∀ n, n < 4 * ps.length → sched (σ4.clock + n) = true := by
      intro n hn
      have := hs (4 + n) (by rw [hlen]; omega)
      rw [hσ4clock]
      rw [show σ.clock + 4 + n = σ.clock + (4 + n) by omega]
      exact this
    obtain ⟨σ', hrun, hclock, htrace, hnext, hmem, hsurv, htasks, hrasters, hget, hnd⟩ :=
      ih σ4 hsched4
    rw [hnext4] at htrace hnext hmem hsurv htasks hget
    refine ⟨σ', ?_, ?_, ?_, ?_, ?_, ?_, ?_, ?_, ?_, ?_⟩
    · simp only [process_pdf_pages, hpage, hrun, List.map_cons]
    · rw [hclock, hσ4clock, hlen]; omega
    · rw [htrace, hσ4trace]
      simp [pagesOps, List.append_assoc]
    · rw [hnext, hlen]; omega
    · intro e he
      rcases hmem e he with hin4 | hrast | htask
      · rw [hσ4store] at hin4
        rcases mem_of_mem_putObj hin4 with heq | ⟨hin3, _⟩
        · refine Or.inr (Or.inr ⟨0, by rw [hlen]; omega, ?_⟩)
          rw [Nat.add_zero, List.getD_cons_zero]
          exact heq
        · rcases mem_of_mem_putObj hin3 with heq | ⟨hin, _⟩
          · exact Or.inr (Or.inl ⟨p, List.mem_cons_self _ _, heq⟩)
          · exact Or.inl hin
      · rcases hrast with ⟨q, hq, heq⟩
        exact Or.inr (Or.inl ⟨q, List.mem_cons_of_mem _ hq, heq⟩)
      · rcases htask with ⟨j, hj, heq⟩
        refine Or.inr (Or.inr ⟨j + 1, by rw [hlen]; omega, ?_⟩)
        rw [show m + (j + 1) = m + 1 + j by omega, List.getD_cons_succ]
        exact heq
    · intro e he hp hj
      have hne_pk : e.1 ≠ pageKey base p := hp p (List.mem_cons_self _ _)
      have hne_tk : e.1 ≠ taskKeyS m := by
        have := hj 0 (by rw [hlen]; omega)
        rwa [Nat.add_zero] at this
      have he4 : e ∈ σ4.store := by
        rw [hσ4store]
        exact mem_putObj_of _ _ (mem_putObj_of _ _ he hne_pk) hne_tk
      refine hsurv e he4 (fun q hq => hp q (List.mem_cons_of_mem _ hq)) ?_
      intro j hjlt
      have := hj (j + 1) (by rw [hlen]; omega)
      rwa [show m + (j + 1) = m + 1 + j by omega] at this
    · intro j hj
      cases j with
      | zero =>
        rw [Nat.add_zero, List.getD_cons_zero]
        have htk4 : (taskKeyS m, tv) ∈ σ4.store := by
          rw [hσ4store]; exact mem_putObj_self _ _ _
        refine hsurv _ htk4 ?_ ?_
        · intro q _; exact fun h => pageKey_ne_taskKey base q m h.symm
        · intro j' _
          intro h
          have := taskKeyS_inj h
          omega
      | succ j' =>
        have hj' : j' < ps.length := by rw [hlen] at hj; omega
        have := htasks j' hj'
        rw [show m + (j' + 1) = m + 1 + j' by omega, List.getD_cons_succ]
        exact this
    · intro hnodup q hq
      rcases List.mem_cons.mp hq with rfl | hq'
      · have hq4 : (pageKey base q, rv) ∈ σ4.store := by
          rw [hσ4store]
          exact mem_putObj_of _ _ (mem_putObj_self _ _ _) (pageKey_ne_taskKey base q m)
        refine hsurv _ hq4 ?_ ?_
        · intro q' hq''
          intro h
          have := pageKey_inj h
          subst this
          exact (List.nodup_cons.mp hnodup).1 hq''
        · intro j' _; exact pageKey_ne_taskKey base q (m + 1 + j')
      · exact hrasters (List.nodup_cons.mp hnodup).2 q hq'
    · intro k' hp hj
      have hk'tk : k' ≠ taskKeyS m := by
        have := hj 0 (by rw [hlen]; omega)
        rwa [Nat.add_zero] at this
      have hk'pk : k' ≠ pageKey base p := hp p (List.mem_cons_self _ _)
      have hstep : getObj σ4.store k' = getObj σ.store k' := by
        rw [hσ4store, getObj_putObj_ne _ _ hk'tk, getObj_putObj_ne _ _ hk'pk]
      rw [← hstep]
      refine hget k' (fun q hq => hp q (List.mem_cons_of_mem _ hq)) ?_
      intro j hjlt
      have := hj (j + 1) (by rw [hlen]; omega)
      rwa [show m + (j + 1) = m + 1 + j by omega] at this
    · intro hnodup
      apply hnd
      rw [hσ4store]
      exact nodup_keys_putObj _ _ (nodup_keys_putObj _ _ hnodup)

theorem bodyImage_taskBody (p : String) : bodyImage (taskBody p) = some (Json.str p) := by
  simp [bodyImage, taskBody, jIdx, jGet]

theorem refP_taskBody (t p : String) (k : String) :
    refP t (k, Val.doc (taskBody p)) = (p == t) := by
  simp [refP, bodyImage_taskBody]

theorem countP_eq_one_of {p : String × Val → Bool} :
    ∀ (l : Store) (e₀ : String × Val), e₀ ∈ l → p e₀ = true →
    (∀ e ∈ l, p e = true → e = e₀) → (l.map (fun e => e.1)).Nodup → l.countP p = 1 := by
  intro l
  induction l with
  | nil => intro e₀ he; simp at he
  | cons a l ih =>
    intro e₀ he hp huniq hnd
    rw [List.map_cons, List.nodup_cons] at hnd
    by_cases ha : a = e₀
    · subst ha
      rw [List.countP_cons_of_pos _ _ hp]
      have hz : l.countP p = 0 := by
        rw [List.countP_eq_zero]
        intro e he' hpe
        have := huniq e (List.mem_cons_of_mem _ he') hpe
        subst this
        exact hnd.1 (List.mem_map_of_mem _ he')
      omega
    · have hpa : p a = false := by
        cases hpav : p a
        · rfl
        · exact absurd (huniq a (List.mem_cons_self _ _) hpav) ha
      rw [List.countP_cons_of_neg _ _ (by simp [hpa])]
      have he' : e₀ ∈ l := by
        rcases List.mem_cons.mp he with h | h
        · exact absurd h.symm ha
        · exact h
      exact ih e₀ he' hp (fun e hme hpe => huniq e (List.mem_cons_of_mem _ hme) hpe) hnd.2

/-! The 1-based page list `range(page_count)` mapped through `+1`, and the
    sequence numbers read back from a trace. -/
theorem range_map_succ_getD {N j : Nat} (h : j < N) :
    ((List.range N).map (fun i => i + 1)).getD j 0 = j + 1 := by
  rw [List.getD_eq_getElem?_getD, List.getElem?_map, List.getElem?_range h]
  rfl

theorem range_map_succ_nodup (N : Nat) : ((List.range N).map (fun i => i + 1)).Nodup :=
  List.Nodup.map (fun a b h => by omega) (List.nodup_range N)

theorem mem_range_map_succ {N q : Nat} :
    q ∈ (List.range N).map (fun i => i + 1) ↔ ∃ i, i < N ∧ q = i + 1 := by
  simp only [List.mem_map, List.mem_range]
  constructor
  · rintro ⟨i, hi, rfl⟩; exact ⟨i, hi, rfl⟩
  · rintro ⟨i, hi, rfl⟩; exact ⟨i, hi, rfl⟩

theorem taskSeqs_append (l1 l2 : List Op) : taskSeqs (l1 ++ l2) = taskSeqs l1 ++ taskSeqs l2 :=
  List.filterMap_append _ _ _

theorem taskSeqs_pageOps (pages : List (List Nat)) (base bucket : String) (p s : Nat) :
    taskSeqs (pageOps pages base bucket p s) = [s] := by
  simp [taskSeqs, pageOps, List.filterMap_cons, taskNum_taskKey]

theorem taskSeqs_pagesOps (pages : List (List Nat)) (base bucket : String) :
    ∀ (ps : List Nat) (s0 : Nat),
      taskSeqs (pagesOps pages base bucket ps s0)
        = (List.range ps.length).map (fun i => s0 + i) := by
  intro ps
  induction ps with
  | nil => intro s0; simp [pagesOps, taskSeqs]
  | cons p ps ih =>
    intro s0
    rw [show pagesOps pages base bucket (p :: ps) s0
        = pageOps pages base bucket p s0 ++ pagesOps pages base bucket ps (s0 + 1) from rfl]
    rw [taskSeqs_append, taskSeqs_pageOps, ih]
    rw [List.length_cons, List.range_succ_eq_map, List.map_cons, List.map_map]
    simp only [List.singleton_append, Nat.add_zero]
    refine congrArg _ ?_
    apply List.map_congr_left
    intro a _
    simp only [Function.comp_apply]
    omega

theorem pairwise_lt_shift (s0 n : Nat) :
    List.Pairwise (fun a b => a < b) ((List.range n).map (fun i => s0 + i)) :=
  List.Pairwise.map _ (fun a b h => by omega) (List.pairwise_lt_range n)

/-- Running `process_pdf` on a non-empty document is the page loop over `1..N`. -/
theorem process_pdf_eq_pages (sched : Sched) (pages : List (List Nat)) (base bucket : String)
    (σ : St) (h : pages.length ≠ 0) :
    process_pdf sched pages base bucket σ
      = process_pdf_pages sched pages base bucket
          ((List.range pages.length).map (fun i => i + 1)) σ := by
  simp [process_pdf, h]

/-- With keys of a `Store` unique, a stored pair is what lookup returns. -/
theorem getObj_eq_of_mem_nodup {s : Store} {k : String} {v : Val}
    (hmem : (k, v) ∈ s) (hnd : (s.map (fun e => e.1)).Nodup) : getObj s k = some v := by
  induction s with
  | nil => simp at hmem
  | cons a s ih =>
    rw [List.map_cons, List.nodup_cons] at hnd
    by_cases ha : a.1 = k
    · have hav : a = (k, v) := by
        rcases List.mem_cons.mp hmem with h | h
        · exact h.symm
        · exact absurd (ha ▸ List.mem_map_of_mem (fun e => e.1) h) hnd.1
      rw [hav]
      simp [getObj, List.find?_cons]
    · have hmem' : (k, v) ∈ s := by
        rcases List.mem_cons.mp hmem with h | h
        · exact absurd (congrArg (fun e => e.1) h.symm) ha
        · exact h
      have hfa : (a.1 == k) = false := by simpa using ha
      simp only [getObj, List.find?_cons, hfa]
      exact ih hmem' hnd.2

/-! The claims. -/
/-- Claim C1: for every listing of the work-item namespace,
    `get_next_task_sequence` returns `max(extracted) + 1` where the extracted
    numbers come from keys whose basename matches `TASK_<digits>.json`, and
    returns 1 when the namespace is empty or no key matches; non-matching keys
    are ignored, not errors, and the result is gap-tolerant: over
    TASK_0000001, TASK_0000003, TASK_0000002 it returns 4. -/
theorem C1_sequence_allocator :
    (∀ keys : List String, (∀ k ∈ keys, taskNumL (baseNameStr k).data = none) →
      nextSeqPure keys = 1) ∧
    (∀ keys : List String, extractNums keys ≠ [] →
      ∃ m ∈ extractNums keys, (∀ x ∈ extractNums keys, x ≤ m) ∧ nextSeqPure keys = m + 1) ∧
    (∀ (k : String) (keys : List String), taskNumL (baseNameStr k).data = none →
      nextSeqPure (k :: keys) = nextSeqPure keys) ∧
    nextSeqPure ["ingest/TASK_0000001.json", "ingest/TASK_0000003.json",
      "ingest/TASK_0000002.json"] = 4 ∧
    nextSeqPure [] = 1 ∧
    (∀ (sched : Sched) (σ : St), sched σ.clock = true →
      get_next_task_sequence sched "ingest/" σ
        = (Except.ok (nextSeqPure (listKeys σ.store "ingest/")),
           ⟨σ.store, σ.clock + 1, σ.trace ++ [Op.list "ingest/"]⟩)) := by
  refine ⟨nextSeqPure_nil_matches, nextSeqPure_max, nextSeqPure_ignores, by decide, rfl, ?_⟩
  intro sched σ h
  simp [get_next_task_sequence, h]

/-- Witness for C1 at concrete inputs: a non-matching listing allocates 1, and
    the gap-tolerant example allocates 4. -/
theorem C1_sequence_allocator_witness :
    nextSeqPure ["ingest/readme.txt"] = 1 ∧
    nextSeqPure ["ingest/TASK_0000001.json", "ingest/TASK_0000003.json",
      "ingest/TASK_0000002.json"] = 4 :=
  ⟨C1_sequence_allocator.1 ["ingest/readme.txt"] (by decide),
   C1_sequence_allocator.2.2.2.1⟩

/-- Claim C2: for a PDF with `N ≥ 1` pages and all external calls succeeding,
    materialization returns exactly `N` durable raster keys, ordered by
    ascending page index and named `raw/<base>_0001.png` to
    `raw/<base>_<N:04d>.png`, places them durably, and emits exactly `N` work
    items with strictly increasing sequence numbers. -/
theorem C2_pdf_materialization (pages : List (List Nat)) (base bucket : String) (σ0 : St)
    (hN : 1 ≤ pages.length) :
    ∃ σ' : St,
      process_pdf allOk pages base bucket σ0
        = (Except.ok ((List.range pages.length).map (fun i => pageKey base (i + 1))), σ') ∧
      ((List.range pages.length).map (fun i => pageKey base (i + 1))).length = pages.length ∧
      taskSeqs (σ'.trace.drop σ0.trace.length)
        = (List.range pages.length).map (fun i => nextIngest σ0 + i) ∧
      (taskSeqs (σ'.trace.drop σ0.trace.length)).length = pages.length ∧
      List.Pairwise (fun a b => a < b) (taskSeqs (σ'.trace.drop σ0.trace.length)) ∧
      (∀ i, i < pages.length →
        (pageKey base (i + 1), Val.file (FileData.imgData (pages.getD i []))) ∈ σ'.store) := by
  have hNe : pages.length ≠ 0 := by omega
  obtain ⟨σ', hrun, hclock, htrace, hnext, hmem, hsurv, htasks, hrasters, hget, hnd⟩ :=
    pages_spec pages base bucket allOk ((List.range pages.length).map (fun i => i + 1)) σ0
      (fun n _ => rfl)
  have hps : ((List.range pages.length).map (fun i => i + 1)).length = pages.length := by simp
  refine ⟨σ', ?_, by simp, ?_, ?_, ?_, ?_⟩
  · rw [process_pdf_eq_pages _ _ _ _ _ hNe, hrun, List.map_map]
    rfl
  · rw [htrace, List.drop_left, taskSeqs_pagesOps, hps]
  · rw [htrace, List.drop_left, taskSeqs_pagesOps, hps]
    simp
  · rw [htrace, List.drop_left, taskSeqs_pagesOps]
    exact pairwise_lt_shift _ _
  · intro i hi
    have hp : (i + 1) ∈ (List.range pages.length).map (fun j => j + 1) :=
      mem_range_map_succ.mpr ⟨i, hi, rfl⟩
    have := hrasters (range_map_succ_nodup _) (i + 1) hp
    simpa using this

/-- Witness for C2: a concrete two-page document in an empty bucket. -/
theorem C2_pdf_materialization_witness :
    ∃ σ' : St,
      process_pdf allOk [[0], [1]] "doc" "b" ⟨[], 0, []⟩
        = (Except.ok ((List.range ([[0], [1]] : List (List Nat)).length).map
            (fun i => pageKey "doc" (i + 1))), σ') ∧
      ((List.range ([[0], [1]] : List (List Nat)).length).map
          (fun i => pageKey "doc" (i + 1))).length = ([[0], [1]] : List (List Nat)).length ∧
      taskSeqs (σ'.trace.drop (([] : List Op)).length)
        = (List.range ([[0], [1]] : List (List Nat)).length).map
            (fun i => nextIngest ⟨[], 0, []⟩ + i) ∧
      (taskSeqs (σ'.trace.drop (([] : List Op)).length)).length
          = ([[0], [1]] : List (List Nat)).length ∧
      List.Pairwise (fun a b => a < b) (taskSeqs (σ'.trace.drop (([] : List Op)).length)) ∧
      (∀ i, i < ([[0], [1]] : List (List Nat)).length →
        (pageKey "doc" (i + 1),
          Val.file (FileData.imgData (([[0], [1]] : List (List Nat)).getD i []))) ∈ σ'.store) :=
  C2_pdf_materialization [[0], [1]] "doc" "b" ⟨[], 0, []⟩ (by decide)

/-- Claim C3 counterexample: a single-worker run that fails at the sequence
    listing call (call index 2, after the raster upload succeeded) reaches a
    state whose durably placed raster `raw/doc_0001.png` has no work item
    referencing it, so the invariant as stated (exactly one reference, even
    in states reached through a failure between raster upload and work-item
    emission) is false on the code. -/
theorem C3_raster_reference_counterexample :
    (process_pdf (fun n => n != 2) [[7]] "doc" "b" ⟨[], 0, []⟩).1
        = Except.error "list_objects failed" ∧
    getObj (process_pdf (fun n => n != 2) [[7]] "doc" "b" ⟨[], 0, []⟩).2.store
        (pageKey "doc" 1) = some (Val.file (FileData.imgData [7])) ∧
    countRefs (process_pdf (fun n => n != 2) [[7]] "doc" "b" ⟨[], 0, []⟩).2.store
        (imgPath "b" (pageKey "doc" 1)) = 0 ∧
    ¬ countRefs (process_pdf (fun n => n != 2) [[7]] "doc" "b" ⟨[], 0, []⟩).2.store
        (imgPath "b" (pageKey "doc" 1)) = 1 :=
  ⟨rfl, rfl, rfl, by decide⟩

/-- Claim C3 (amended): in the state reached by a failure-free single-worker
    run of the page materializer, from a state whose store has unique keys and
    no pre-existing work item referencing the raster keys of the run, every raster
    artifact placed in durable storage by the run has exactly one work item
    referencing it.  (States reached through a failure after the raster upload
    but before or during work-item emission are excluded: there the raster can
    be referenced by no work item, see the counterexample.) -/
theorem C3_raster_reference_amended (pages : List (List Nat)) (base bucket : String)
    (σ0 : St) (hN : 1 ≤ pages.length)
    (hnodup : (σ0.store.map (fun e => e.1)).Nodup)
    (hfresh : ∀ i, 1 ≤ i → i ≤ pages.length →
      countRefs σ0.store (imgPath bucket (pageKey base i)) = 0) :
    ∃ σ' : St,
      process_pdf allOk pages base bucket σ0
        = (Except.ok ((List.range pages.length).map (fun i => pageKey base (i + 1))), σ') ∧
      ∀ i, 1 ≤ i → i ≤ pages.length →
        (pageKey base i, Val.file (FileData.imgData (pages.getD (i - 1) []))) ∈ σ'.store ∧
        countRefs σ'.store (imgPath bucket (pageKey base i)) = 1 := by
  have hNe : pages.length ≠ 0 := by omega
  obtain ⟨σ', hrun, hclock, htrace, hnext, hmem, hsurv, htasks, hrasters, hget, hnd⟩ :=
    pages_spec pages base bucket allOk ((List.range pages.length).map (fun i => i + 1)) σ0
      (fun n _ => rfl)
  have hps : ((List.range pages.length).map (fun i => i + 1)).length = pages.length := by simp
  refine ⟨σ', by rw [process_pdf_eq_pages _ _ _ _ _ hNe, hrun, List.map_map]; rfl, ?_⟩
  intro i h1 h2
  have hilt : i - 1 < pages.length := by omega
  have hgetD : ((List.range pages.length).map (fun j => j + 1)).getD (i - 1) 0 = i := by
    rw [range_map_succ_getD hilt]; omega
  constructor
  · exact hrasters (range_map_succ_nodup _) i (mem_range_map_succ.mpr ⟨i - 1, hilt, by omega⟩)
  · have he : (taskKeyS (nextIngest σ0 + (i - 1)),
        Val.doc (taskBody (imgPath bucket (pageKey base i)))) ∈ σ'.store := by
      have := htasks (i - 1) (by rw [hps]; exact hilt)
      rwa [hgetD] at this
    have hpe : refP (imgPath bucket (pageKey base i))
        (taskKeyS (nextIngest σ0 + (i - 1)),
         Val.doc (taskBody (imgPath bucket (pageKey base i)))) = true := by
      rw [refP_taskBody]
      exact beq_self_eq_true _
    refine countP_eq_one_of σ'.store _ he hpe ?_ (hnd hnodup)
    intro e hes hpes
    rcases hmem e hes with h0 | hr | ht
    · exfalso
      exact (List.countP_eq_zero.mp (hfresh i h1 h2)) e h0 hpes
    · exfalso
      rcases hr with ⟨q, hq, rfl⟩
      simp [refP] at hpes
    · rcases ht with ⟨j, hj, rfl⟩
      have hjlt : j < pages.length := by rw [hps] at hj; exact hj
      rw [range_map_succ_getD hjlt] at hpes ⊢
      rw [refP_taskBody] at hpes
      have himg : imgPath bucket (pageKey base (j + 1)) = imgPath bucket (pageKey base i) :=
        eq_of_beq hpes
      have hji : j + 1 = i := pageKey_inj (imgPath_inj himg)
      have hj' : j = i - 1 := by omega
      rw [hji, hj']

/-- Witness for the amended C3 at a concrete one-page document. -/
theorem C3_raster_reference_amended_witness :
    ∃ σ' : St,
      process_pdf allOk [[5]] "doc" "b" ⟨[], 0, []⟩
        = (Except.ok ((List.range ([[5]] : List (List Nat)).length).map
            (fun i => pageKey "doc" (i + 1))), σ') ∧
      ∀ i, 1 ≤ i → i ≤ ([[5]] : List (List Nat)).length →
        (pageKey "doc" i,
          Val.file (FileData.imgData (([[5]] : List (List Nat)).getD (i - 1) []))) ∈ σ'.store ∧
        countRefs σ'.store (imgPath "b" (pageKey "doc" i)) = 1 :=
  C3_raster_reference_amended [[5]] "doc" "b" ⟨[], 0, []⟩ (by decide) (by decide)
    (fun _ _ _ => rfl)

theorem recordS3_mkRecordBody (bucket rawKey : String) :
    recordS3 (mkRecordBody bucket rawKey) = some (bucket, rawKey) := rfl

/-- Claim C4: for every batch (any records, any failures, any sync outcome)
    the handler returns a structured result whose top-level status is
    `success`; it never raises (its Lean type is total, not `Except`), and a
    sync transport failure shows up only in the `sync` sub-field. -/
theorem C4_batch_always_success (sched : Sched) (syncResp : List (String × Json))
    (records : List Json) (σ0 : St) :
    jGet (lambda_handler sched syncResp records σ0).1 "status"
        = some (Json.str "success") ∧
    (sched (processRecords sched records σ0).clock = false →
      jGet (lambda_handler sched syncResp records σ0).1 "sync"
        = some (Json.obj [("status", Json.str "failed"),
            ("response", Json.obj [("error", Json.str "RequestException")])])) := by
  constructor
  · rfl
  · intro h
    simp [lambda_handler, doSync, h, jGet]

/-- Witness for C4: the empty batch with a failing sync transport still
    reports overall success, with the failure confined to the sync field. -/
theorem C4_batch_always_success_witness :
    jGet (lambda_handler (fun _ => false) [] [] ⟨[], 0, []⟩).1 "status"
        = some (Json.str "success") ∧
    jGet (lambda_handler (fun _ => false) [] [] ⟨[], 0, []⟩).1 "sync"
        = some (Json.obj [("status", Json.str "failed"),
            ("response", Json.obj [("error", Json.str "RequestException")])]) :=
  ⟨(C4_batch_always_success (fun _ => false) [] [] ⟨[], 0, []⟩).1,
   (C4_batch_always_success (fun _ => false) [] [] ⟨[], 0, []⟩).2 rfl⟩

/-- Claim C6: a notification whose unescaped key lacks the `upload/` staging
    prefix, or whose lower-cased extension is outside the supported set,
    causes no external call at all (state, clock and trace unchanged) and
    completes as a normal skip return, not an error. -/
theorem C6_skip_contract (bucket rawKey : String) (sched : Sched) (σ : St)
    (h : strStarts "upload/" (unquote_plus rawKey) = false ∨
      (extOf (unquote_plus rawKey) ≠ ".pdf" ∧ extOf (unquote_plus rawKey) ≠ ".png")) :
    process_s3_record sched (mkRecordBody bucket rawKey) σ = (Except.ok (), σ) := by
  by_cases hpre : strStarts "upload/" (unquote_plus rawKey) = true
  · rcases h with h | ⟨h1, h2⟩
    · rw [hpre] at h; simp at h
    · have hb1 : ((extOf (unquote_plus rawKey)) == ".pdf") = false := by
        simpa using h1
      have hb2 : ((extOf (unquote_plus rawKey)) == ".png") = false := by
        simpa using h2
      simp only [process_s3_record, recordS3_mkRecordBody, hpre, Bool.not_true,
        Bool.false_eq_true, if_false]
      rw [show (splitext (baseNameStr (unquote_plus rawKey)).data).2.map Char.toLower
          = (extOf (unquote_plus rawKey)).data from rfl]
      simp only [show (⟨(extOf (unquote_plus rawKey)).data⟩ : String)
          = extOf (unquote_plus rawKey) from rfl]
      rw [hb1, hb2]
      simp
  · have hpre' : strStarts "upload/" (unquote_plus rawKey) = false := by
      cases hv : strStarts "upload/" (unquote_plus rawKey)
      · rfl
      · exact absurd hv hpre
    simp [process_s3_record, recordS3_mkRecordBody, hpre']

/-- Witness for C6: a key outside the staging prefix, and a staged key with
    an unsupported extension, are both skipped with the state untouched. -/
theorem C6_skip_contract_witness :
    process_s3_record allOk (mkRecordBody "b" "docs/a.png") ⟨[], 0, []⟩
        = (Except.ok (), ⟨[], 0, []⟩) ∧
    process_s3_record allOk (mkRecordBody "b" "upload/a.tiff") ⟨[], 0, []⟩
        = (Except.ok (), ⟨[], 0, []⟩) :=
  ⟨C6_skip_contract "b" "docs/a.png" allOk ⟨[], 0, []⟩ (Or.inl (by decide)),
   C6_skip_contract "b" "upload/a.tiff" allOk ⟨[], 0, []⟩ (Or.inr (by decide))⟩

theorem not_prefix_of_head_ne {a b : Char} {l t : List Char} (h : a ≠ b) :
    (a :: l).isPrefixOf (b :: t) = false := by
  rw [Bool.eq_false_iff]
  intro hp
  exact absurd (List.cons_prefix_cons.mp (isPrefixOf_true_iff.mp hp)).1 h

theorem relocKey_data (key : String) :
    (relocKeyOf key).data
      = 'r' :: (('a' :: 'w' :: '/' :: (srcBase key).data) ++ ".png".data) := by
  simp [relocKeyOf, strData_append]

theorem ingest_not_prefix_relocKey (key : String) :
    "ingest/".data.isPrefixOf (relocKeyOf key).data = false := by
  rw [relocKey_data, show "ingest/".data = 'i' :: "ngest/".data from rfl]
  exact not_prefix_of_head_ne (by decide)

theorem upload_key_data {k : String} (h : strStarts "upload/" k = true) :
    ∃ t, k.data = 'u' :: t := by
  rcases isPrefixOf_true_iff.mp h with ⟨t, ht⟩
  refine ⟨"pload/".data ++ t, ?_⟩
  rw [← ht]
  rfl

theorem ne_of_data_head {k k2 : String} {a b : Char} (ha : ∃ t, k.data = a :: t)
    (hb : ∃ t, k2.data = b :: t) (hne : a ≠ b) : k ≠ k2 := by
  rcases ha with ⟨t1, h1⟩
  rcases hb with ⟨t2, h2⟩
  intro e
  rw [e] at h1
  exact hne (List.head_eq_of_cons_eq (h1.symm.trans h2))

theorem upload_ne_pageKey {k : String} (h : strStarts "upload/" k = true)
    (base : String) (i : Nat) : k ≠ pageKey base i :=
  ne_of_data_head (upload_key_data h) ⟨_, pageKey_data base i⟩ (by decide)

theorem upload_ne_taskKey {k : String} (h : strStarts "upload/" k = true)
    (s : Nat) : k ≠ taskKeyS s :=
  ne_of_data_head (upload_key_data h) ⟨_, taskKeyS_data s⟩ (by decide)

theorem upload_ne_relocKey {k : String} (h : strStarts "upload/" k = true)
    (key : String) : k ≠ relocKeyOf key :=
  ne_of_data_head (upload_key_data h) ⟨_, relocKey_data key⟩ (by decide)

theorem relocKey_ne_taskKey (key : String) (s : Nat) : relocKeyOf key ≠ taskKeyS s :=
  ne_of_data_head ⟨_, relocKey_data key⟩ ⟨_, taskKeyS_data s⟩ (by decide)

theorem countP_filter_keep {α : Type} (p q : α → Bool) (l : List α)
    (h : ∀ e, p e = true → q e = true) : (l.filter q).countP p = l.countP p := by
  induction l with
  | nil => rfl
  | cons a l ih =>
    by_cases hq : q a = true
    · rw [List.filter_cons_of_pos hq]
      cases hp : p a
      · rw [List.countP_cons_of_neg _ _ (by simp [hp]), List.countP_cons_of_neg _ _ (by simp [hp])]
        exact ih
      · rw [List.countP_cons_of_pos _ _ hp, List.countP_cons_of_pos _ _ hp, ih]
    · have hp : p a = false := by
        cases hpa : p a
        · rfl
        · exact absurd (h a hpa) (by simp [hq])
      rw [List.filter_cons_of_neg (by simp [hq]), List.countP_cons_of_neg _ _ (by simp [hp])]
      exact ih

theorem countKey_putObj_self (s : Store) (k : String) (v : Val) :
    (putObj s k v).countP (fun e => e.1 == k) = 1 := by
  simp only [putObj]
  rw [List.countP_cons_of_pos _ _ (by simp)]
  have hz : (s.filter (fun e => e.1 != k)).countP (fun e => e.1 == k) = 0 := by
    rw [List.countP_eq_zero]
    intro e he
    have := (List.mem_filter.mp he).2
    simp only [bne_iff_ne] at this
    simp [this]
  omega

theorem countKey_putObj_ne (s : Store) {k k' : String} (v : Val) (h : k ≠ k') :
    (putObj s k v).countP (fun e => e.1 == k') = s.countP (fun e => e.1 == k') := by
  simp only [putObj]
  rw [List.countP_cons_of_neg _ _ (by simp [h])]
  apply countP_filter_keep
  intro e he
  have : e.1 = k' := by simpa using he
  subst this
  simpa [bne_iff_ne] using fun e2 => h e2.symm

/-- Full run of `process_s3_record` on a staged PNG original with every
    external call succeeding: download, relocation (upload then delete),
    raster upload to the same `raw/<base>.png` key, allocation, emission. -/
theorem png_record_run (bucket rawKey : String) (content : Val) (σ : St)
    (hpre : strStarts "upload/" (unquote_plus rawKey) = true)
    (hext : extOf (unquote_plus rawKey) = ".png")
    (hget : getObj σ.store (unquote_plus rawKey) = some content) :
    process_s3_record allOk (mkRecordBody bucket rawKey) σ
      = (Except.ok (),
         ⟨putObj (putObj (delObj (putObj σ.store (relocKeyOf (unquote_plus rawKey)) content)
              (unquote_plus rawKey)) (relocKeyOf (unquote_plus rawKey)) content)
            (taskKeyS (nextIngest σ))
            (Val.doc (taskBody (imgPath bucket (relocKeyOf (unquote_plus rawKey))))),
          σ.clock + 6,
          σ.trace ++ [Op.download (unquote_plus rawKey),
            Op.upload (relocKeyOf (unquote_plus rawKey)) content,
            Op.delete (unquote_plus rawKey),
            Op.upload (relocKeyOf (unquote_plus rawKey)) content,
            Op.list "ingest/",
            Op.upload (taskKeyS (nextIngest σ))
              (Val.doc (taskBody (imgPath bucket (relocKeyOf (unquote_plus rawKey)))))]⟩) := by
  have hext' : (⟨(splitext (baseNameStr (unquote_plus rawKey)).data).2.map Char.toLower⟩ : String)
      = ".png" := hext
  have e1 : ((".png" : String) == ".pdf") = false := by decide
  have e2 : ((".png" : String) == ".png") = true := by decide
  have hrk : "ingest/".data.isPrefixOf (relocKeyOf (unquote_plus rawKey)).data = false :=
    ingest_not_prefix_relocKey (unquote_plus rawKey)
  have hup : "ingest/".data.isPrefixOf (unquote_plus rawKey).data = false :=
    ingest_not_prefix_of_upload hpre
  have hseq : nextSeqPure (listKeys (putObj (delObj (putObj σ.store
      (relocKeyOf (unquote_plus rawKey)) content) (unquote_plus rawKey))
      (relocKeyOf (unquote_plus rawKey)) content) "ingest/") = nextIngest σ := by
    rw [listKeys_putObj_nopre _ _ _ _ hrk, listKeys_delObj_nopre _ _ _ hup,
      listKeys_putObj_nopre _ _ _ _ hrk]
    rfl
  have hseq' : nextSeqPure (listKeys (putObj (delObj (putObj σ.store
      ("raw/" ++ srcBase (unquote_plus rawKey) ++ ".png") content) (unquote_plus rawKey))
      ("raw/" ++ srcBase (unquote_plus rawKey) ++ ".png") content) "ingest/") = nextIngest σ := hseq
  simp only [process_s3_record, recordS3_mkRecordBody, hpre, Bool.not_true,
    Bool.false_eq_true, if_false, hext', e1, e2, Bool.false_or, Bool.not_false,
    if_true, s3Download, allOk, hget, move_original_to_raw, s3Upload, s3Delete,
    process_png, get_next_task_sequence, create_and_upload_task]
  simp only [show (⟨(splitext (baseNameStr (unquote_plus rawKey)).data).1⟩ : String)
      = srcBase (unquote_plus rawKey) from rfl]
  simp only [hseq']
  simp only [Prod.mk.injEq, St.mk.injEq]
  refine ⟨trivial, rfl, trivial, ?_⟩
  simp [relocKeyOf, taskKeyS, imgPath, List.append_assoc]

/-- Full run of `process_s3_record` on a staged PDF original with every
    external call succeeding: one download, then the page loop; no deletion
    ever happens and the staged object is left as it was. -/
theorem pdf_record_run (bucket rawKey : String) (pages : List (List Nat)) (σ : St)
    (hpre : strStarts "upload/" (unquote_plus rawKey) = true)
    (hext : extOf (unquote_plus rawKey) = ".pdf")
    (hget : getObj σ.store (unquote_plus rawKey) = some (Val.file (FileData.pdfData pages)))
    (hN : 1 ≤ pages.length) :
    ∃ σ' : St,
      process_s3_record allOk (mkRecordBody bucket rawKey) σ = (Except.ok (), σ') ∧
      σ'.trace = σ.trace ++ (Op.download (unquote_plus rawKey)
          :: pagesOps pages (srcBase (unquote_plus rawKey)) bucket
               ((List.range pages.length).map (fun i => i + 1)) (nextIngest σ)) ∧
      getObj σ'.store (unquote_plus rawKey) = some (Val.file (FileData.pdfData pages)) := by
  have hNe : pages.length ≠ 0 := by omega
  have hext' : (⟨(splitext (baseNameStr (unquote_plus rawKey)).data).2.map Char.toLower⟩ : String)
      = ".pdf" := hext
  have e1 : ((".pdf" : String) == ".pdf") = true := by decide
  have e3 : ((".pdf" : String) == ".png") = false := by decide
  obtain ⟨σ', hrun, hclock, htrace, hnext, hmem, hsurv, htasks, hrasters, hgetf, hnd⟩ :=
    pages_spec pages (srcBase (unquote_plus rawKey)) bucket allOk
      ((List.range pages.length).map (fun i => i + 1))
      ⟨σ.store, σ.clock + 1, σ.trace ++ [Op.download (unquote_plus rawKey)]⟩
      (fun n _ => rfl)
  have hpdf : process_pdf allOk pages (srcBase (unquote_plus rawKey)) bucket
      ⟨σ.store, σ.clock + 1, σ.trace ++ [Op.download (unquote_plus rawKey)]⟩
      = (Except.ok (((List.range pages.length).map (fun i => i + 1)).map
          (pageKey (srcBase (unquote_plus rawKey)))), σ') := by
    rw [process_pdf_eq_pages _ _ _ _ _ hNe]
    exact hrun
  refine ⟨σ', ?_, ?_, ?_⟩
  · simp only [process_s3_record, recordS3_mkRecordBody, hpre, Bool.not_true,
      Bool.false_eq_true, if_false, hext', e1, e3, Bool.true_or, Bool.not_true,
      s3Download, allOk, if_true, hget]
    simp only [show (⟨(splitext (baseNameStr (unquote_plus rawKey)).data).1⟩ : String)
        = srcBase (unquote_plus rawKey) from rfl, hpdf]
  · rw [htrace]
    simp only [show (⟨σ.store, σ.clock + 1,
        σ.trace ++ [Op.download (unquote_plus rawKey)]⟩ : St).trace
        = σ.trace ++ [Op.download (unquote_plus rawKey)] from rfl]
    rw [show nextIngest ⟨σ.store, σ.clock + 1,
        σ.trace ++ [Op.download (unquote_plus rawKey)]⟩ = nextIngest σ from rfl]
    simp [List.append_assoc]
  · have := hgetf (unquote_plus rawKey)
      (fun p _ => upload_ne_pageKey hpre _ p)
      (fun j _ => upload_ne_taskKey hpre _)
    rw [this]
    exact hget

theorem getObj_delObj_self (s : Store) (k : String) : getObj (delObj s k) k = none := by
  simp only [getObj, delObj]
  rw [List.find?_eq_none.mpr]
  · rfl
  · intro e he
    have := (List.mem_filter.mp he).2
    simp only [bne_iff_ne] at this
    simp [this]

theorem pagesOps_no_delete (pages : List (List Nat)) (base bucket : String) :
    ∀ (ps : List Nat) (seq : Nat) (k : String),
      Op.delete k ∉ pagesOps pages base bucket ps seq := by
  intro ps
  induction ps with
  | nil => intro seq k h; simp [pagesOps] at h
  | cons p ps ih =>
    intro seq k h
    rw [show pagesOps pages base bucket (p :: ps) seq
        = pageOps pages base bucket p seq ++ pagesOps pages base bucket ps (seq + 1) from rfl,
      List.mem_append] at h
    rcases h with h | h
    · simp [pageOps] at h
    · exact ih (seq + 1) k h

/-- Claim C7: a raster (`.png`) original is relocated before materialization:
    its bytes are uploaded to `raw/<base><ext>` and the staging object is
    deleted; a PDF original is never relocated: no delete is issued and the
    staging object is left unchanged. -/
theorem C7_relocation_policy (bucket rawKey : String) (σ : St)
    (hpre : strStarts "upload/" (unquote_plus rawKey) = true) :
    (∀ content : Val, extOf (unquote_plus rawKey) = ".png" →
      getObj σ.store (unquote_plus rawKey) = some content →
      ∃ σ' : St,
        process_s3_record allOk (mkRecordBody bucket rawKey) σ = (Except.ok (), σ') ∧
        σ'.trace.drop σ.trace.length
          = [Op.download (unquote_plus rawKey),
             Op.upload (relocKeyOf (unquote_plus rawKey)) content,
             Op.delete (unquote_plus rawKey),
             Op.upload (relocKeyOf (unquote_plus rawKey)) content,
             Op.list "ingest/",
             Op.upload (taskKeyS (nextIngest σ))
               (Val.doc (taskBody (imgPath bucket (relocKeyOf (unquote_plus rawKey)))))] ∧
        getObj σ'.store (unquote_plus rawKey) = none ∧
        getObj σ'.store (relocKeyOf (unquote_plus rawKey)) = some content) ∧
    (∀ pages : List (List Nat), extOf (unquote_plus rawKey) = ".pdf" →
      getObj σ.store (unquote_plus rawKey) = some (Val.file (FileData.pdfData pages)) →
      1 ≤ pages.length →
      ∃ σ' : St,
        process_s3_record allOk (mkRecordBody bucket rawKey) σ = (Except.ok (), σ') ∧
        (∀ k, Op.delete k ∉ σ'.trace.drop σ.trace.length) ∧
        getObj σ'.store (unquote_plus rawKey) = some (Val.file (FileData.pdfData pages))) := by
  constructor
  · intro content hext hget
    refine ⟨_, png_record_run bucket rawKey content σ hpre hext hget, ?_, ?_, ?_⟩
    · rw [show (⟨_, _, σ.trace ++ [Op.download (unquote_plus rawKey),
          Op.upload (relocKeyOf (unquote_plus rawKey)) content,
          Op.delete (unquote_plus rawKey),
          Op.upload (relocKeyOf (unquote_plus rawKey)) content,
          Op.list "ingest/",
          Op.upload (taskKeyS (nextIngest σ))
            (Val.doc (taskBody (imgPath bucket (relocKeyOf (unquote_plus rawKey)))))]⟩ : St).trace
          = σ.trace ++ [Op.download (unquote_plus rawKey),
          Op.upload (relocKeyOf (unquote_plus rawKey)) content,
          Op.delete (unquote_plus rawKey),
          Op.upload (relocKeyOf (unquote_plus rawKey)) content,
          Op.list "ingest/",
          Op.upload (taskKeyS (nextIngest σ))
            (Val.doc (taskBody (imgPath bucket (relocKeyOf (unquote_plus rawKey)))))] from rfl]
      exact List.drop_left _ _
    · rw [show (⟨putObj (putObj (delObj (putObj σ.store (relocKeyOf (unquote_plus rawKey))
            content) (unquote_plus rawKey)) (relocKeyOf (unquote_plus rawKey)) content)
          (taskKeyS (nextIngest σ))
          (Val.doc (taskBody (imgPath bucket (relocKeyOf (unquote_plus rawKey))))), _, _⟩ : St).store
          = putObj (putObj (delObj (putObj σ.store (relocKeyOf (unquote_plus rawKey))
            content) (unquote_plus rawKey)) (relocKeyOf (unquote_plus rawKey)) content)
          (taskKeyS (nextIngest σ))
          (Val.doc (taskBody (imgPath bucket (relocKeyOf (unquote_plus rawKey))))) from rfl]
      rw [getObj_putObj_ne _ _ (upload_ne_taskKey hpre _),
        getObj_putObj_ne _ _ (upload_ne_relocKey hpre _)]
      exact getObj_delObj_self _ _
    · rw [getObj_putObj_ne _ _ (relocKey_ne_taskKey _ _)]
      exact getObj_putObj_self _ _ _
  · intro pages hext hget hN
    obtain ⟨σ', hrun, htrace, hobj⟩ := pdf_record_run bucket rawKey pages σ hpre hext hget hN
    refine ⟨σ', hrun, ?_, hobj⟩
    intro k hk
    rw [htrace, List.drop_left] at hk
    rcases List.mem_cons.mp hk with h | h
    · cases h
    · exact pagesOps_no_delete pages (srcBase (unquote_plus rawKey)) bucket _ _ k h

/-- Witness for C7: a staged PNG original is relocated and deleted; a staged
    PDF original stays in place with no delete issued. -/
theorem C7_relocation_policy_witness :
    (∃ σ' : St,
      process_s3_record allOk (mkRecordBody "b" "upload/pic.png")
          ⟨[("upload/pic.png", Val.file (FileData.imgData [9]))], 0, []⟩ = (Except.ok (), σ') ∧
      σ'.trace.drop ([] : List Op).length
        = [Op.download (unquote_plus "upload/pic.png"),
           Op.upload (relocKeyOf (unquote_plus "upload/pic.png")) (Val.file (FileData.imgData [9])),
           Op.delete (unquote_plus "upload/pic.png"),
           Op.upload (relocKeyOf (unquote_plus "upload/pic.png")) (Val.file (FileData.imgData [9])),
           Op.list "ingest/",
           Op.upload (taskKeyS (nextIngest ⟨[("upload/pic.png",
               Val.file (FileData.imgData [9]))], 0, []⟩))
             (Val.doc (taskBody (imgPath "b" (relocKeyOf (unquote_plus "upload/pic.png")))))] ∧
      getObj σ'.store (unquote_plus "upload/pic.png") = none ∧
      getObj σ'.store (relocKeyOf (unquote_plus "upload/pic.png"))
        = some (Val.file (FileData.imgData [9]))) ∧
    (∃ σ' : St,
      process_s3_record allOk (mkRecordBody "b" "upload/doc.pdf")
          ⟨[("upload/doc.pdf", Val.file (FileData.pdfData [[1]]))], 0, []⟩ = (Except.ok (), σ') ∧
      (∀ k, Op.delete k ∉ σ'.trace.drop ([] : List Op).length) ∧
      getObj σ'.store (unquote_plus "upload/doc.pdf")
        = some (Val.file (FileData.pdfData [[1]]))) :=
  ⟨(C7_relocation_policy "b" "upload/pic.png"
      ⟨[("upload/pic.png", Val.file (FileData.imgData [9]))], 0, []⟩ (by decide)).1
      (Val.file (FileData.imgData [9])) (by decide) rfl,
   (C7_relocation_policy "b" "upload/doc.pdf"
      ⟨[("upload/doc.pdf", Val.file (FileData.pdfData [[1]]))], 0, []⟩ (by decide)).2
      [[1]] (by decide) rfl (by decide)⟩

/-- Claim C9: for a `.png` source with base `b`, the relocated-original key
    and the raster key are the same `raw/<b>.png`, so a successful run writes
    that key twice (relocation upload first, then the materialization upload
    overwriting it) and the final store holds exactly one object at it. -/
theorem C9_png_key_collision (bucket rawKey : String) (content : Val) (σ : St)
    (hpre : strStarts "upload/" (unquote_plus rawKey) = true)
    (hext : extOf (unquote_plus rawKey) = ".png")
    (hget : getObj σ.store (unquote_plus rawKey) = some content) :
    relocKeyOf (unquote_plus rawKey)
        = "raw/" ++ srcBase (unquote_plus rawKey) ++ ".png" ∧
    ∃ σ' : St,
      process_s3_record allOk (mkRecordBody bucket rawKey) σ = (Except.ok (), σ') ∧
      (σ'.trace.drop σ.trace.length).countP (fun op => match op with
        | Op.upload k _ => k == relocKeyOf (unquote_plus rawKey)
        | _ => false) = 2 ∧
      σ'.store.countP (fun e => e.1 == relocKeyOf (unquote_plus rawKey)) = 1 := by
  refine ⟨rfl, _, png_record_run bucket rawKey content σ hpre hext hget, ?_, ?_⟩
  · rw [show (⟨_, _, σ.trace ++ [Op.download (unquote_plus rawKey),
        Op.upload (relocKeyOf (unquote_plus rawKey)) content,
        Op.delete (unquote_plus rawKey),
        Op.upload (relocKeyOf (unquote_plus rawKey)) content,
        Op.list "ingest/",
        Op.upload (taskKeyS (nextIngest σ))
          (Val.doc (taskBody (imgPath bucket (relocKeyOf (unquote_plus rawKey)))))]⟩ : St).trace
        = σ.trace ++ [Op.download (unquote_plus rawKey),
        Op.upload (relocKeyOf (unquote_plus rawKey)) content,
        Op.delete (unquote_plus rawKey),
        Op.upload (relocKeyOf (unquote_plus rawKey)) content,
        Op.list "ingest/",
        Op.upload (taskKeyS (nextIngest σ))
          (Val.doc (taskBody (imgPath bucket (relocKeyOf (unquote_plus rawKey)))))] from rfl,
      List.drop_left]
    have htk : ((taskKeyS (nextIngest σ)) == relocKeyOf (unquote_plus rawKey)) = false := by
      simp only [beq_eq_false_iff_ne, ne_eq]
      exact fun h => relocKey_ne_taskKey (unquote_plus rawKey) (nextIngest σ) h.symm
    simp [List.countP_cons, htk]
  · rw [show (⟨putObj (putObj (delObj (putObj σ.store (relocKeyOf (unquote_plus rawKey))
          content) (unquote_plus rawKey)) (relocKeyOf (unquote_plus rawKey)) content)
        (taskKeyS (nextIngest σ))
        (Val.doc (taskBody (imgPath bucket (relocKeyOf (unquote_plus rawKey))))), _, _⟩ : St).store
        = putObj (putObj (delObj (putObj σ.store (relocKeyOf (unquote_plus rawKey))
          content) (unquote_plus rawKey)) (relocKeyOf (unquote_plus rawKey)) content)
        (taskKeyS (nextIngest σ))
        (Val.doc (taskBody (imgPath bucket (relocKeyOf (unquote_plus rawKey))))) from rfl]
    rw [countKey_putObj_ne _ _ (fun h => relocKey_ne_taskKey (unquote_plus rawKey)
      (nextIngest σ) h.symm)]
    exact countKey_putObj_self _ _ _

/-- Witness for C9: the concrete staged PNG record from the C7 witness. -/
theorem C9_png_key_collision_witness :
    relocKeyOf (unquote_plus "upload/pic.png")
        = "raw/" ++ srcBase (unquote_plus "upload/pic.png") ++ ".png" ∧
    ∃ σ' : St,
      process_s3_record allOk (mkRecordBody "b" "upload/pic.png")
          ⟨[("upload/pic.png", Val.file (FileData.imgData [9]))], 0, []⟩ = (Except.ok (), σ') ∧
      (σ'.trace.drop (⟨[("upload/pic.png", Val.file (FileData.imgData [9]))], 0, []⟩ : St).trace.length).countP
          (fun op => match op with
        | Op.upload k _ => k == relocKeyOf (unquote_plus "upload/pic.png")
        | _ => false) = 2 ∧
      σ'.store.countP (fun e => e.1 == relocKeyOf (unquote_plus "upload/pic.png")) = 1 :=
  C9_png_key_collision "b" "upload/pic.png" (Val.file (FileData.imgData [9]))
    ⟨[("upload/pic.png", Val.file (FileData.imgData [9]))], 0, []⟩ (by decide) (by decide) rfl

/-- Claim C8: the emitter persists, at key `ingest/TASK_<s:07d>.json`, a JSON
    body that is a list of exactly one element whose `data.image` field is the
    given image reference, and returns exactly that key.  (The `json.dump` /
    `json.loads` pair of the standard library is modelled as the identity on
    the JSON value, so parsing back the persisted body yields the stored
    value.) -/
theorem C8_task_roundtrip (bucket r : String) (s : Nat) (sched : Sched) (σ : St)
    (h : sched σ.clock = true) :
    create_and_upload_task sched bucket r s σ
        = (Except.ok (taskKeyS s),
           ⟨putObj σ.store (taskKeyS s) (Val.doc (taskBody r)), σ.clock + 1,
            σ.trace ++ [Op.upload (taskKeyS s) (Val.doc (taskBody r))]⟩) ∧
    getObj (putObj σ.store (taskKeyS s) (Val.doc (taskBody r))) (taskKeyS s)
        = some (Val.doc (taskBody r)) ∧
    jArrLen (taskBody r) = some 1 ∧
    bodyImage (taskBody r) = some (Json.str r) := by
  refine ⟨?_, getObj_putObj_self _ _ _, rfl, bodyImage_taskBody r⟩
  simp only [create_and_upload_task, s3Upload, h, if_true]
  rfl

/-- Witness for C8 at a concrete sequence number and image reference. -/
theorem C8_task_roundtrip_witness :
    create_and_upload_task allOk "b" "s3://b/raw/x.png" 3 ⟨[], 0, []⟩
        = (Except.ok (taskKeyS 3),
           ⟨putObj [] (taskKeyS 3) (Val.doc (taskBody "s3://b/raw/x.png")), 1,
            [] ++ [Op.upload (taskKeyS 3) (Val.doc (taskBody "s3://b/raw/x.png"))]⟩) ∧
    getObj (putObj [] (taskKeyS 3) (Val.doc (taskBody "s3://b/raw/x.png"))) (taskKeyS 3)
        = some (Val.doc (taskBody "s3://b/raw/x.png")) ∧
    jArrLen (taskBody "s3://b/raw/x.png") = some 1 ∧
    bodyImage (taskBody "s3://b/raw/x.png") = some (Json.str "s3://b/raw/x.png") := by
  have h := C8_task_roundtrip "b" "s3://b/raw/x.png" 3 allOk ⟨[], 0, []⟩ rfl
  simpa using h

/-- Claim C5: for a 3-page PDF, a failure while rendering (`off = 0`) or
    uploading (`off = 1`) page 2 leaves the page-1 raster and its work item
    durably placed, emits exactly that one work item, touches nothing at the
    page-3 key, and the error is contained: the batch loop still processes
    the next notification on the state the failed record left behind. -/
theorem C5_page2_failure_containment (pages : List (List Nat)) (base bucket : String)
    (σ : St) (h3 : pages.length = 3) (off : Nat) (hoff : off ≤ 1) (sched : Sched)
    (hok : ∀ n, n < 4 + off → sched (σ.clock + n) = true)
    (hfail : sched (σ.clock + (4 + off)) = false) :
    (∃ (e : String) (σ'' : St),
      process_pdf sched pages base bucket σ = (Except.error e, σ'') ∧
      getObj σ''.store (pageKey base 1)
        = some (Val.file (FileData.imgData (pages.getD 0 []))) ∧
      getObj σ''.store (taskKeyS (nextIngest σ))
        = some (Val.doc (taskBody (imgPath bucket (pageKey base 1)))) ∧
      taskSeqs (σ''.trace.drop σ.trace.length) = [nextIngest σ] ∧
      getObj σ''.store (pageKey base 3) = getObj σ.store (pageKey base 3)) ∧
    (∀ (sched2 : Sched) (resp : List (String × Json)) (r1 r2 : Json) (rest : List Json)
      (σ0 : St),
      lambda_handler sched2 resp (r1 :: r2 :: rest) σ0
        = lambda_handler sched2 resp (r2 :: rest) (process_s3_record sched2 r1 σ0).2) := by
  refine ⟨?_, fun _ _ _ _ _ _ => rfl⟩
  have hps : (List.range pages.length).map (fun i => i + 1) = [1, 2, 3] := by rw [h3]; rfl
  have hpage1 := process_pdf_page_ok pages 1 base bucket sched σ
    (by simpa using hok 0 (by omega)) (hok 1 (by omega)) (hok 2 (by omega))
    (hok 3 (by omega))
  set m := nextIngest σ with hm
  set rv : Val := Val.file (FileData.imgData (pages.getD (1 - 1) [])) with hrv
  set tv : Val := Val.doc (taskBody (imgPath bucket (pageKey base 1))) with htv
  set σ4 : St := ⟨putObj (putObj σ.store (pageKey base 1) rv) (taskKeyS m) tv,
    σ.clock + 4, σ.trace ++ pageOps pages base bucket 1 m⟩ with hσ4def
  have hσ4store : σ4.store = putObj (putObj σ.store (pageKey base 1) rv) (taskKeyS m) tv := by
    rw [hσ4def]
  have hσ4trace : σ4.trace = σ.trace ++ pageOps pages base bucket 1 m := by rw [hσ4def]
  have hstore1 : getObj σ4.store (pageKey base 1)
      = some (Val.file (FileData.imgData (pages.getD 0 []))) := by
    rw [hσ4store, getObj_putObj_ne _ _ (pageKey_ne_taskKey base 1 m)]
    exact getObj_putObj_self _ _ _
  have hstore2 : getObj σ4.store (taskKeyS m)
      = some (Val.doc (taskBody (imgPath bucket (pageKey base 1)))) := by
    rw [hσ4store]
    exact getObj_putObj_self _ _ _
  have hstore3 : getObj σ4.store (pageKey base 3) = getObj σ.store (pageKey base 3) := by
    rw [hσ4store, getObj_putObj_ne _ _ (pageKey_ne_taskKey base 3 m),
      getObj_putObj_ne _ _ (fun h => by have := pageKey_inj h; omega)]
  interval_cases off
  · have hfail4 : sched (σ.clock + 4) = false := by simpa using hfail
    have hpage2 : process_pdf_page sched pages 2 base bucket σ4
        = (Except.error "render failed", ⟨σ4.store, σ4.clock + 1, σ4.trace⟩) := by
      simp [process_pdf_page, hσ4def, hfail4]
    refine ⟨"render failed", ⟨σ4.store, σ4.clock + 1, σ4.trace⟩, ?_, hstore1, hstore2, ?_, hstore3⟩
    · rw [process_pdf_eq_pages _ _ _ _ _ (by omega), hps]
      simp only [process_pdf_pages, hpage1, hpage2]
    · rw [show (⟨σ4.store, σ4.clock + 1, σ4.trace⟩ : St).trace = σ4.trace from rfl,
        hσ4trace, List.drop_left, taskSeqs_pageOps]
  · have hok4 : sched (σ.clock + 4) = true := hok 4 (by omega)
    have hfail5 : sched (σ.clock + 4 + 1) = false := by
      have : σ.clock + (4 + 1) = σ.clock + 4 + 1 := by omega
      rwa [this] at hfail
    have hpage2 : process_pdf_page sched pages 2 base bucket σ4
        = (Except.error "upload_file failed",
           ⟨σ4.store, σ4.clock + 1 + 1, σ4.trace ++ [Op.render 2]⟩) := by
      simp [process_pdf_page, s3Upload, hσ4def, hok4, hfail5]
    refine ⟨"upload_file failed", ⟨σ4.store, σ4.clock + 1 + 1, σ4.trace ++ [Op.render 2]⟩,
      ?_, hstore1, hstore2, ?_, hstore3⟩
    · rw [process_pdf_eq_pages _ _ _ _ _ (by omega), hps]
      simp only [process_pdf_pages, hpage1, hpage2]
    · rw [show (⟨σ4.store, σ4.clock + 1 + 1, σ4.trace ++ [Op.render 2]⟩ : St).trace
          = σ4.trace ++ [Op.render 2] from rfl, hσ4trace, List.append_assoc,
        List.drop_left, taskSeqs_append, taskSeqs_pageOps]
      rfl

/-- Witness for C5: a concrete 3-page document whose page-2 render call (the
    global call at index 4) fails, in an empty bucket. -/
theorem C5_page2_failure_containment_witness :
    (∃ (e : String) (σ'' : St),
      process_pdf (fun n => n != 4) [[1], [2], [3]] "doc" "b" ⟨[], 0, []⟩
          = (Except.error e, σ'') ∧
      getObj σ''.store (pageKey "doc" 1)
        = some (Val.file (FileData.imgData (([[1], [2], [3]] : List (List Nat)).getD 0 []))) ∧
      getObj σ''.store (taskKeyS (nextIngest ⟨[], 0, []⟩))
        = some (Val.doc (taskBody (imgPath "b" (pageKey "doc" 1)))) ∧
      taskSeqs (σ''.trace.drop (⟨[], 0, []⟩ : St).trace.length)
          = [nextIngest ⟨[], 0, []⟩] ∧
      getObj σ''.store (pageKey "doc" 3) = getObj (⟨[], 0, []⟩ : St).store (pageKey "doc" 3)) ∧
    (∀ (sched2 : Sched) (resp : List (String × Json)) (r1 r2 : Json) (rest : List Json)
      (σ0 : St),
      lambda_handler sched2 resp (r1 :: r2 :: rest) σ0
        = lambda_handler sched2 resp (r2 :: rest) (process_s3_record sched2 r1 σ0).2) :=
  C5_page2_failure_containment [[1], [2], [3]] "doc" "b" ⟨[], 0, []⟩ (by decide) 0
    (by decide) (fun n => n != 4)
    (fun n hn => by simpa [bne_iff_ne] using (by omega : n ≠ 4)) (by decide)

/-- Claim C10: only the first element of the embedded `Records` list of a
    notification body is processed; any further embedded records are ignored:
    the run is identical to the run on the singleton list. -/
theorem C10_only_first_embedded_record (r0 : Json) (rest : List Json) (sched : Sched)
    (σ : St) :
    process_s3_record sched (Json.obj [("Records", Json.arr (r0 :: rest))]) σ
      = process_s3_record sched (Json.obj [("Records", Json.arr [r0])]) σ := rfl

end IngestPipeline
